import Mathlib

set_option linter.unusedVariables false
set_option maxRecDepth 16000
set_option linter.unreachableTactic false
set_option linter.unusedTactic false

/-!
Shallow embedding of the Tufte editor's rendering core: the Markdown → HTML
converter of `parser.js` (inline pass, block pass) and the citations module
(BibTeX parser, citation tracker, reference formatting).  JS strings are
modelled as lists of characters; the module-level mutable counters and the
per-render citation tracker are threaded as an explicit state record.
-/

/-- JS strings modelled as lists of characters. -/
abbrev Str := List Char

/-- The ASCII whitespace characters of the JS `\s` class (the Unicode space
characters play no role in the claims). -/
def jsWs (c : Char) : Bool :=
  c == ' ' || c == '\t' || c == '\n' || c == '\r' || c == '\x0b' || c == '\x0c'

/-- JS `String.prototype.trim` restricted to ASCII whitespace. -/
def jsTrim (s : Str) : Str :=
  ((s.dropWhile jsWs).reverse.dropWhile jsWs).reverse

/-- JS `toLowerCase` (ASCII behaviour). -/
def lowerStr (s : Str) : Str := s.map Char.toLower

/-- The decimal digit character for `d < 10`. -/
def digitChar (d : Nat) : Char :=
  if d = 0 then '0' else if d = 1 then '1' else if d = 2 then '2'
  else if d = 3 then '3' else if d = 4 then '4' else if d = 5 then '5'
  else if d = 6 then '6' else if d = 7 then '7' else if d = 8 then '8' else '9'

/-- Decimal digits of a number (fuelled; `n + 1` fuel always suffices). -/
def natReprAux : Nat → Nat → Str
  | 0, _ => []
  | fuel + 1, n =>
    if n < 10 then [digitChar n] else natReprAux fuel (n / 10) ++ [digitChar (n % 10)]

/-- Decimal rendering of a number, as JS template interpolation of a
non-negative integer produces it. -/
def natRepr (n : Nat) : Str := natReprAux (n + 1) n

/-- `escapeHtml` from parser.js: the chained global replaces of `&`, `<`, `>`
(the replacements interact with none of the later passes, so the sequential
replaces equal one character-wise map). -/
def escapeHtml (s : Str) : Str :=
  s.flatMap fun c =>
    if c = '&' then "&amp;".data
    else if c = '<' then "&lt;".data
    else if c = '>' then "&gt;".data
    else [c]

/-- `escapeAttr` from parser.js: additionally escapes double quotes. -/
def escapeAttr (s : Str) : Str :=
  s.flatMap fun c =>
    if c = '&' then "&amp;".data
    else if c = '"' then "&quot;".data
    else if c = '<' then "&lt;".data
    else if c = '>' then "&gt;".data
    else [c]

/-- Does `pat` occur as a contiguous substring of `s`? -/
def hasSub (pat : Str) : Str → Bool
  | [] => pat.isEmpty
  | c :: s => pat.isPrefixOf (c :: s) || hasSub pat s

/-- Number of positions of `s` at which `pat` occurs. -/
def countSub (pat : Str) : Str → Nat
  | [] => if pat.isEmpty then 1 else 0
  | c :: s => (if pat.isPrefixOf (c :: s) then 1 else 0) + countSub pat s

example : hasSub "bc".data "abcd".data = true := by decide
example : hasSub "bd".data "abcd".data = false := by decide
example : countSub "aa".data "aaa".data = 2 := by decide
example : natRepr 30 = "30".data := by decide
example : escapeHtml "a<b&".data = "a&lt;b&amp;".data := by decide
example : jsTrim "  a b ".data = "a b".data := by decide

/-! ### JS objects and maps as association lists -/

/-- First binding of a key in an association list (JS property / Map lookup). -/
def assocGet? {α : Type} (o : List (Str × α)) (k : Str) : Option α :=
  (o.find? (fun p => p.1 == k)).map (·.2)

/-- Overwriting assignment: replaces the value in place if the key is bound
(JS object property assignment and `Map.set` both keep the original
position), otherwise appends the binding. -/
def assocSet {α : Type} (o : List (Str × α)) (k : Str) (v : α) : List (Str × α) :=
  if o.any (fun p => p.1 == k) then
    o.map (fun p => if p.1 == k then (p.1, v) else p)
  else o ++ [(k, v)]

/-- A parsed BibTeX entry is a JS object: the `key` and `type` properties plus
the parsed fields, with later assignments overwriting earlier ones. -/
abbrev BibObj := List (Str × Str)

/-- Property read with JS truthiness folded in: a missing property
(`undefined`) and the empty string are both falsy, and all uses in the source
are guarded by truthiness checks, so both are represented by `[]`. -/
def objGet (o : BibObj) (k : Str) : Str :=
  match assocGet? o k with
  | some v => v
  | none => []

/-- The bibliography store `_bibliography` (a JS `Map` from lowercased key to
entry). -/
abbrev Bib := List (Str × BibObj)

/-! ### Author normalization (citations.js) -/

/-- One step of the JS split on `/\s+and\s+/i`: if `s` starts with that
separator (greedy whitespace runs around a case-insensitive `and`), return
the remainder after the separator. -/
def andSplitTry (s : Str) : Option Str :=
  let w1 := s.takeWhile jsWs
  let r1 := s.dropWhile jsWs
  if w1.isEmpty then none else
  match r1 with
  | a :: n :: d :: rest =>
    if a.toLower = 'a' ∧ n.toLower = 'n' ∧ d.toLower = 'd' then
      let w2 := rest.takeWhile jsWs
      if w2.isEmpty then none else some (rest.dropWhile jsWs)
    else none
  | _ => none

/-- Split on `/\s+and\s+/i`, fuelled scanner (each step consumes at least one
character, so `length + 1` fuel always suffices). -/
def splitAndAux : Nat → Str → Str → List Str
  | 0, cur, s => [cur.reverse ++ s]
  | _ + 1, cur, [] => [cur.reverse]
  | fuel + 1, cur, c :: s =>
    match andSplitTry (c :: s) with
    | some rest => cur.reverse :: splitAndAux fuel [] rest
    | none => splitAndAux fuel (c :: cur) s

/-- JS `authorStr.split(/\s+and\s+/i)`. -/
def splitAnd (s : Str) : List Str := splitAndAux (s.length + 1) [] s

/-- JS `s.split(sep)` for a one-character separator string. -/
def splitOnChar (sep : Char) : Str → List Str
  | [] => [[]]
  | c :: s =>
    if c = sep then [] :: splitOnChar sep s
    else
      match splitOnChar sep s with
      | [] => [[c]]
      | p :: ps => (c :: p) :: ps

/-- JS `s.split(/\s+/)`: pieces between maximal whitespace runs (a leading or
trailing run contributes an empty piece, as in JS). -/
def splitWsAux : Nat → Str → Str → List Str
  | 0, cur, s => [cur.reverse ++ s]
  | _ + 1, cur, [] => [cur.reverse]
  | fuel + 1, cur, c :: s =>
    if jsWs c then cur.reverse :: splitWsAux fuel [] (s.dropWhile jsWs)
    else splitWsAux fuel (c :: cur) s

/-- JS `s.split(/\s+/)`. -/
def splitWs (s : Str) : List Str := splitWsAux (s.length + 1) [] s

/-- `l.join(sep)`. -/
def joinSep (sep : Str) : List Str → Str
  | [] => []
  | [x] => x
  | x :: xs => x ++ sep ++ joinSep sep xs

/-- `normalizeAuthors` from citations.js. -/
def normalizeAuthors (authorStr : Str) : Str :=
  if authorStr.isEmpty then [] else
  let normalized := (splitAnd authorStr).map fun a =>
    let a := jsTrim a
    if a.contains ',' then
      let parts := (splitOnChar ',' a).map jsTrim
      parts.getD 1 [] ++ ' ' :: parts.getD 0 []
    else a
  match normalized with
  | [x] => x
  | [x, y] => x ++ " & ".data ++ y
  | _ => joinSep ", ".data normalized.dropLast ++ " & ".data ++ (normalized.getLast?.getD [])

/-- `getLastName` from citations.js. -/
def getLastName (authorStr : Str) : Str :=
  if authorStr.isEmpty then "Unknown".data else
  let firstAuthor := jsTrim ((splitAnd authorStr).headD [])
  if firstAuthor.contains ',' then
    jsTrim ((splitOnChar ',' firstAuthor).headD [])
  else
    (splitWs firstAuthor).getLast?.getD []

/-- JS `n[0] + '.'` over the pieces of a name, where indexing an empty string
gives `undefined` (concatenated as the text "undefined"). -/
def initialDot (n : Str) : Str :=
  match n with
  | [] => "undefined.".data
  | c :: _ => [c, '.']

/-- `formatAPAAuthors` from citations.js. -/
def formatAPAAuthors (authorStr : Str) : Str :=
  if authorStr.isEmpty then [] else
  let authors := (splitAnd authorStr).map fun a =>
    let a := jsTrim a
    if a.contains ',' then
      let parts := (splitOnChar ',' a).map jsTrim
      let initials := joinSep " ".data ((splitWs (parts.getD 1 [])).map initialDot)
      parts.getD 0 [] ++ ", ".data ++ initials
    else
      let parts := splitWs a
      if parts.length = 1 then a
      else
        let last := parts.getLast?.getD []
        let initials := joinSep " ".data (parts.dropLast.map initialDot)
        last ++ ", ".data ++ initials
  match authors with
  | [x] => x
  | [x, y] => x ++ ", & ".data ++ y
  | _ => joinSep ", ".data authors.dropLast ++ ", & ".data ++ (authors.getLast?.getD [])

/-! ### Citation tracker (citations.js per-render state) -/

/-- One per-render URL citation record (`_urlCitations` element). -/
structure UrlCite where
  url : Str
  name : Str
  number : Nat
deriving Repr, DecidableEq

/-- The per-render citation tracker: `_citedKeys`, `_citeCounter`,
`_urlCitations`.  The JS `_citedKeySet` mirrors `_citedKeys` exactly (both
are only ever updated together in `trackCitation`), so membership in
`citedKeys` models `Set.has`. -/
structure CitState where
  citedKeys : List Str
  citeCounter : Nat
  urlCitations : List UrlCite
deriving Repr, DecidableEq

/-- `resetCitationTracking` from citations.js. -/
def resetCitationTracking : CitState := ⟨[], 0, []⟩

/-- JS `Array.prototype.indexOf` for an element known to be present. -/
def idxOfStr (k : Str) : List Str → Nat
  | [] => 0
  | x :: xs => if x = k then 0 else idxOfStr k xs + 1

/-- `trackCitation` from citations.js. -/
def trackCitation (key : Str) (st : CitState) : Nat × CitState :=
  if key ∈ st.citedKeys then (idxOfStr key st.citedKeys + 1, st)
  else
    (st.citeCounter + 1,
      { st with
        citeCounter := st.citeCounter + 1
        citedKeys := st.citedKeys ++ [key] })

/-- The two citation styles (`'numbered' | 'apa'`). -/
inductive CitationStyle
  | numbered
  | apa
deriving DecidableEq, Repr

/-- `citationLink` from citations.js. -/
def citationLink (number : Nat) (label : Str) (titleAttr : Str) : Str :=
  "<a class=\"citation\" href=\"#ref-".data ++ natRepr number ++ "\"".data ++
  (if titleAttr ≠ [] then " title=\"".data ++ escapeAttr titleAttr ++ "\"".data else []) ++
  ">".data ++ label ++ "</a>".data

/-- Global JS replace of `..` by `.` (left to right, non-overlapping). -/
def replaceDots : Str → Str
  | '.' :: '.' :: s => '.' :: replaceDots s
  | c :: s => c :: replaceDots s
  | [] => []

/-- `formatReferenceText` from citations.js (the tooltip text). -/
def formatReferenceText (entry : BibObj) : Str :=
  let author := objGet entry "author".data
  let year := objGet entry "year".data
  let title := objGet entry "title".data
  let journal := objGet entry "journal".data
  let publisher := objGet entry "publisher".data
  let volume := objGet entry "volume".data
  let pages := objGet entry "pages".data
  let parts :=
    (if author ≠ [] then [normalizeAuthors author] else []) ++
    (if year ≠ [] then ['(' :: year ++ [')']] else []) ++
    (if title ≠ [] then [title] else []) ++
    (if journal ≠ [] then [journal] else []) ++
    (if publisher ≠ [] then [publisher] else []) ++
    (if volume ≠ [] then [volume ++ (if pages ≠ [] then ", ".data ++ pages else [])]
     else if pages ≠ [] then [pages] else [])
  replaceDots (joinSep ". ".data parts) ++ ['.']

/-- `formatInlineCitation` from citations.js, with the bibliography store and
style passed explicitly and the tracker state threaded. -/
def formatInlineCitation (bib : Bib) (style : CitationStyle) (key : Str)
    (st : CitState) : Str × CitState :=
  let lowerKey := lowerStr key
  match assocGet? bib lowerKey with
  | none => ("<span class=\"citation-error\">[@".data ++ escapeHtml key ++ "]</span>".data, st)
  | some entry =>
    let (number, st') := trackCitation lowerKey st
    let refText := formatReferenceText entry
    if style = .apa then
      let lastName := getLastName (objGet entry "author".data)
      let year := if objGet entry "year".data ≠ [] then objGet entry "year".data else "n.d.".data
      (citationLink number
        ('(' :: escapeHtml lastName ++ ", ".data ++ escapeHtml year ++ [')']) refText, st')
    else
      (citationLink number ('[' :: natRepr number ++ [']']) refText, st')

/-- Modelled from the spec: `new URL(url).hostname` uses the browser's WHATWG
URL parser, which is not part of this repository.  The spec says only that
the APA form of a URL citation shows "displayName or url's hostname"; this
captures hostname extraction for ordinary absolute URLs, and `none` stands
for the constructor throwing (caught in the source, falling back to the url
itself). -/
def urlHostname (u : Str) : Option Str :=
  let scheme := u.takeWhile (fun c => c ≠ ':')
  let rec afterSep : Str → Option Str
    | [] => none
    | c :: s => if "://".data.isPrefixOf (c :: s) then some (s.drop 2) else afterSep s
  match afterSep u with
  | none => none
  | some rest =>
    let host := rest.takeWhile (fun c => ¬(c = '/' ∨ c = ':' ∨ c = '?' ∨ c = '#'))
    if scheme ≠ [] ∧ scheme.all (fun c => c.isAlpha) ∧ host ≠ [] then
      some (lowerStr host)
    else none

/-- In-place display-name update of the first matching record, modelling the
JS mutation `existing.name = name` on the record found by `find`. -/
def updateUrlName : List UrlCite → Str → Str → List UrlCite
  | [], _, _ => []
  | u :: us, url, name =>
    if u.url = url then { u with name := name } :: us
    else u :: updateUrlName us url name

/-- `formatInlineUrlCitation` from citations.js.  The absent-`name` call and
the empty-string `name` behave identically in the source (both falsy), so
`name = []` models both.  The side write to the persistent autocomplete list
`_urlStore` (`addToUrlStore`) is omitted: that list is never read anywhere in
the render path, only by the editor's autocomplete (`searchUrlStore`). -/
def formatInlineUrlCitation (style : CitationStyle) (url name : Str)
    (st : CitState) : Str × CitState :=
  let domain := match urlHostname url with | some h => h | none => url
  let displayName := if name ≠ [] then name else domain
  let urlKey := "__url__".data ++ url
  let existing := st.urlCitations.find? (fun u => u.url == url)
  let st1 :=
    if existing.isSome ∧ name ≠ [] then
      { st with urlCitations := updateUrlName st.urlCitations url name }
    else st
  let (number, st2) := trackCitation urlKey st1
  let st3 :=
    if existing.isNone then
      { st2 with urlCitations := st2.urlCitations ++ [⟨url, name, number⟩] }
    else st2
  let titleArg := if name ≠ [] then name else url
  if style = .apa then
    (citationLink number ('(' :: escapeHtml displayName ++ [')']) titleArg, st3)
  else
    (citationLink number ('[' :: natRepr number ++ [']']) titleArg, st3)

/-- `formatNumberedReference` from citations.js. -/
def formatNumberedReference (entry : BibObj) : Str :=
  let author := objGet entry "author".data
  let title := objGet entry "title".data
  let journal := objGet entry "journal".data
  let publisher := objGet entry "publisher".data
  let volume := objGet entry "volume".data
  let pages := objGet entry "pages".data
  let year := objGet entry "year".data
  let doi := objGet entry "doi".data
  let url := objGet entry "url".data
  let parts :=
    (if author ≠ [] then [escapeHtml (normalizeAuthors author)] else []) ++
    (if title ≠ [] then ['"' :: escapeHtml title ++ ['"']] else []) ++
    (if journal ≠ [] then ["<em>".data ++ escapeHtml journal ++ "</em>".data] else []) ++
    (if publisher ≠ [] then [escapeHtml publisher] else []) ++
    (if volume ≠ [] then
      ["vol. ".data ++ escapeHtml volume ++
        (if pages ≠ [] then ", pp. ".data ++ escapeHtml pages else [])]
     else if pages ≠ [] then ["pp. ".data ++ escapeHtml pages] else []) ++
    (if year ≠ [] then [escapeHtml year] else [])
  let ref := joinSep ", ".data parts ++ ['.']
  if doi ≠ [] then
    ref ++ " <a href=\"https://doi.org/".data ++ escapeAttr doi ++ "\">doi:".data ++
      escapeHtml doi ++ "</a>".data
  else if url ≠ [] then
    ref ++ " <a href=\"".data ++ escapeAttr url ++ "\">".data ++ escapeHtml url ++ "</a>".data
  else ref

/-- `formatAPAReference` from citations.js. -/
def formatAPAReference (entry : BibObj) : Str :=
  let author := objGet entry "author".data
  let year := objGet entry "year".data
  let title := objGet entry "title".data
  let journal := objGet entry "journal".data
  let publisher := objGet entry "publisher".data
  let volume := objGet entry "volume".data
  let pages := objGet entry "pages".data
  let doi := objGet entry "doi".data
  let url := objGet entry "url".data
  let parts :=
    (if author ≠ [] then [escapeHtml (formatAPAAuthors author)] else []) ++
    (if year ≠ [] then ['(' :: escapeHtml year ++ [')']] else []) ++
    (if title ≠ [] then [escapeHtml title] else []) ++
    (if journal ≠ [] then
      ["<em>".data ++ escapeHtml journal ++ "</em>".data ++
        (if volume ≠ [] then ", <em>".data ++ escapeHtml volume ++ "</em>".data else []) ++
        (if pages ≠ [] then ", ".data ++ escapeHtml pages else [])]
     else if publisher ≠ [] then [escapeHtml publisher] else [])
  let ref := replaceDots (joinSep ". ".data parts) ++ ['.']
  if doi ≠ [] then
    ref ++ " <a href=\"https://doi.org/".data ++ escapeAttr doi ++
      "\">https://doi.org/".data ++ escapeHtml doi ++ "</a>".data
  else if url ≠ [] then
    ref ++ " <a href=\"".data ++ escapeAttr url ++ "\">".data ++ escapeHtml url ++ "</a>".data
  else ref

/-- `formatReferenceHTML` from citations.js. -/
def formatReferenceHTML (style : CitationStyle) (entry : BibObj) : Str :=
  if style = .apa then formatAPAReference entry else formatNumberedReference entry

/-- One `<li>` of the references list (the body of the loop in
`renderReferencesSection`); a bibliography key whose entry is missing emits
nothing. -/
def refListItem (bib : Bib) (style : CitationStyle) (st : CitState)
    (key : Str) (num : Nat) : Str :=
  if "__url__".data.isPrefixOf key then
    let url := key.drop 7
    let urlName :=
      match st.urlCitations.find? (fun u => u.url == url) with
      | some u => u.name
      | none => []
    if urlName ≠ [] then
      "<li id=\"ref-".data ++ natRepr num ++ "\">".data ++ escapeHtml urlName ++
        ". <a href=\"".data ++ escapeAttr url ++ "\">".data ++ escapeHtml url ++ "</a></li>".data
    else
      "<li id=\"ref-".data ++ natRepr num ++ "\"><a href=\"".data ++ escapeAttr url ++
        "\">".data ++ escapeHtml url ++ "</a></li>".data
  else
    match assocGet? bib key with
    | some entry =>
      "<li id=\"ref-".data ++ natRepr num ++ "\">".data ++
        formatReferenceHTML style entry ++ "</li>".data
    | none => []

/-- `renderReferencesSection` from citations.js. -/
def renderReferencesSection (bib : Bib) (style : CitationStyle) (st : CitState) : Str :=
  if st.citedKeys.isEmpty then [] else
  "<div class=\"references\"><h2>References</h2><ol class=\"references-list\">".data ++
  (st.citedKeys.enum.map (fun p => refListItem bib style st p.2 (p.1 + 1))).foldr (· ++ ·) [] ++
  "</ol></div>".data

/-! ### BibTeX parser (citations.js `parseBibTeX` / `parseEntryBody`) -/

/-- Index of the first occurrence of `c` in `s` (the found index is a valid
position, which the type records for the termination argument). -/
def findCharIdx? (c : Char) : (s : Str) → Option (Fin s.length)
  | [] => none
  | x :: s =>
    if x = c then some ⟨0, by simp⟩
    else (findCharIdx? c s).map (fun j => ⟨j.val + 1, by simp⟩)

/-- The brace-depth scanner of `parseBibTeX`: starting at depth `depth`,
the offset of the character at which the depth reaches 0 (the matching
closing brace), or `none` when the braces are unbalanced. -/
def matchBraceAux (depth : Nat) : (s : Str) → Option (Fin s.length)
  | [] => none
  | c :: rest =>
    let depth' := if c = '{' then depth + 1 else if c = '}' then depth - 1 else depth
    if depth' = 0 then some ⟨0, by simp⟩
    else (matchBraceAux depth' rest).map (fun j => ⟨j.val + 1, by simp⟩)

/-- The braced-value scanner of `parseEntryBody`: collects characters while
the depth stays positive, consuming the balancing `}`; on unbalanced input it
consumes everything (as the JS loop does). Returns (value, remainder). -/
def bracedValue (depth : Nat) : Str → Str × Str
  | [] => ([], [])
  | c :: rest =>
    let depth' := if c = '{' then depth + 1 else if c = '}' then depth - 1 else depth
    if depth' = 0 then ([], rest)
    else
      let (v, r) := bracedValue depth' rest
      (c :: v, r)

/-- `/[a-zA-Z_-]/`, the field-name character class. -/
def isFieldNameChar (c : Char) : Bool := c.isAlpha || c == '_' || c == '-'

/-- The `field = value` loop of `parseEntryBody`.  Every iteration consumes
at least one character, so fuel `length + 1` always suffices. -/
def entryFieldsAux : Nat → Str → BibObj → BibObj
  | 0, _, fields => fields
  | fuel + 1, body, fields =>
    let b := body.dropWhile (fun c => jsWs c || c == ',')
    if b.isEmpty then fields else
    let fieldNameRaw := b.takeWhile isFieldNameChar
    let fieldName := lowerStr fieldNameRaw
    let b1 := b.drop fieldNameRaw.length
    if fieldNameRaw.isEmpty then entryFieldsAux fuel (b1.drop 1) fields
    else
      let b2 := b1.dropWhile jsWs
      match b2 with
      | '=' :: b3 =>
        let b4 := b3.dropWhile jsWs
        match b4 with
        | '{' :: b5 =>
          let (v, rest) := bracedValue 1 b5
          entryFieldsAux fuel rest (assocSet fields fieldName (jsTrim v))
        | '"' :: b5 =>
          let v := b5.takeWhile (fun c => c ≠ '"')
          let rest := (b5.dropWhile (fun c => c ≠ '"')).drop 1
          entryFieldsAux fuel rest (assocSet fields fieldName (jsTrim v))
        | _ =>
          let v := b4.takeWhile (fun c => ¬(c = ',' ∨ c = '}') ∧ ¬ jsWs c)
          entryFieldsAux fuel (b4.drop v.length) (assocSet fields fieldName (jsTrim v))
      | _ => entryFieldsAux fuel b2 fields

/-- `parseEntryBody` from citations.js: the first comma-delimited token is
the citation key; a body with an empty key yields no entry.  The returned
entry is the JS object `{ key, ...fields }` with `fields.type = type` set
before the field loop (so a parsed field named `key` or `type` overwrites,
as the spread does). -/
def parseEntryBody (body type : Str) : Option BibObj :=
  let b1 := body.dropWhile jsWs
  let keyRaw := b1.takeWhile (fun c => c ≠ ',')
  let key := jsTrim keyRaw
  if key.isEmpty then none
  else
    some (entryFieldsAux (body.length + 1) ((b1.dropWhile (fun c => c ≠ ',')).drop 1)
      (assocSet (assocSet [] "key".data key) "type".data type))

/-- Whitespace skip from index `n`. -/
def skipWsIdx (text : Str) (n : Nat) : Nat := n + ((text.drop n).takeWhile jsWs).length

/-- The alphabetic entry type read at index `n`. -/
def typeAt (text : Str) (n : Nat) : Str := (text.drop n).takeWhile (fun c => c.isAlpha)

/-- The index after `@` + entry type + whitespace, i.e. where the opening
brace is expected, when the next `@` is at offset `j` of `text.drop i`. -/
def braceIdx (text : Str) (i j : Nat) : Nat :=
  skipWsIdx text (i + j + 1 + (typeAt text (i + j + 1)).length)

/-- The outer scan loop of `parseBibTeX`: `i` is the cursor, `entries` the
map built so far.  Mirrors the JS control flow: no further `@` ends the scan;
a missing `{` retries from the current position; unbalanced outer braces end
the scan keeping `entries`; `string`/`preamble`/`comment` entries are
skipped; an entry with a truthy key is stored under its lowercased key. -/
def bibLoop (text : Str) (i : Nat) (entries : List (Str × BibObj)) :
    List (Str × BibObj) :=
  match hAt : findCharIdx? '@' (text.drop i) with
  | none => entries
  | some j =>
    let i1 := i + j.val + 1
    let ty := lowerStr (typeAt text i1)
    let i2 := braceIdx text i j.val
    if text[i2]? = some '{' then
      match matchBraceAux 1 (text.drop (i2 + 1)) with
      | none => entries
      | some off =>
        let body := (text.drop (i2 + 1)).take off.val
        let i4 := i2 + 1 + off.val + 1
        if ty = "string".data ∨ ty = "preamble".data ∨ ty = "comment".data then
          bibLoop text i4 entries
        else
          match parseEntryBody body ty with
          | none => bibLoop text i4 entries
          | some entry =>
            if objGet entry "key".data ≠ [] then
              bibLoop text i4 (assocSet entries (lowerStr (objGet entry "key".data)) entry)
            else bibLoop text i4 entries
    else bibLoop text i2 entries
termination_by text.length + 1 - i
decreasing_by
  all_goals
    have hj := j.isLt
    simp only [List.length_drop] at hj
    simp only [braceIdx, skipWsIdx]
    omega

/-- `parseBibTeX` from citations.js. -/
def parseBibTeX (text : Str) : List (Str × BibObj) := bibLoop text 0 []

/-! ### Inline pass (parser.js `parseInline`)

Each JS `String.replace(regex, fn)` pass is a left-to-right scanner: at every
position the regex is tried; on a match the replacement is emitted and the
scan resumes after the matched text; otherwise one character is copied.  The
scanners are fuelled; every step consumes at least one input character, so
`length + 1` fuel is always sufficient. -/

/-- The render-state of parser.js: the module counters `_snCounter` and
`_mnCounter` plus the citation tracker. -/
structure RenderState where
  sn : Nat
  mn : Nat
  cit : CitState
deriving Repr, DecidableEq

/-- `marginToggleHTML` from parser.js. -/
def marginToggleHTML (id labelContent spanClass spanContent : Str) : Str :=
  "<label class=\"margin-toggle".data ++
  (if labelContent.isEmpty then " sidenote-number".data else []) ++
  "\" for=\"".data ++ id ++ "\">".data ++ labelContent ++ "</label>".data ++
  "<input type=\"checkbox\" id=\"".data ++ id ++ "\" class=\"margin-toggle\"/>".data ++
  "<span class=\"".data ++ spanClass ++ "\">".data ++ spanContent ++ "</span>".data

/-- The opaque placeholder token `\x00PH<i>\x00`. -/
def phTok (i : Nat) : Str := '\x00' :: 'P' :: 'H' :: natRepr i ++ ['\x00']

/-- Pass 1: extract inline code spans `` `...` `` to placeholders. -/
def extractCodeAux : Nat → Str → List Str → Str × List Str
  | 0, s, ph => (s, ph)
  | _ + 1, [], ph => ([], ph)
  | fuel + 1, c :: s, ph =>
    if c = '`' then
      let content := s.takeWhile (fun x => x ≠ '`')
      let rest := s.dropWhile (fun x => x ≠ '`')
      if rest.isEmpty ∨ content.isEmpty then
        let (out, ph') := extractCodeAux fuel s ph
        (c :: out, ph')
      else
        let (out, ph') := extractCodeAux fuel (rest.drop 1)
          (ph ++ ["<code>".data ++ escapeHtml content ++ "</code>".data])
        (phTok ph.length ++ out, ph')
    else
      let (out, ph') := extractCodeAux fuel s ph
      (c :: out, ph')

/-- Pass 2: extract inline math `$...$` (`/\$([^\$\n]+?)\$/g`) to
placeholders; the content class excludes `$` and newline, so the lazy
quantifier reaches exactly the next `$`. -/
def extractMathAux : Nat → Str → List Str → Str × List Str
  | 0, s, ph => (s, ph)
  | _ + 1, [], ph => ([], ph)
  | fuel + 1, c :: s, ph =>
    if c = '$' then
      let content := s.takeWhile (fun x => x ≠ '$')
      let rest := s.dropWhile (fun x => x ≠ '$')
      if rest.isEmpty ∨ content.isEmpty ∨ content.contains '\n' then
        let (out, ph') := extractMathAux fuel s ph
        (c :: out, ph')
      else
        let (out, ph') := extractMathAux fuel (rest.drop 1)
          (ph ++ ["<span class=\"math-inline\">".data ++ escapeHtml content ++ "</span>".data])
        (phTok ph.length ++ out, ph')
    else
      let (out, ph') := extractMathAux fuel s ph
      (c :: out, ph')

/-- Matcher for `\x7bTAG:content\x7d` at a position whose `{` has been
consumed: returns the (non-empty, `\x7d`-free) content and the remainder. -/
def braceTagMatch? (tag : Str) (s : Str) : Option (Str × Str) :=
  if (tag ++ [':']).isPrefixOf s then
    let s1 := s.drop (tag.length + 1)
    let content := s1.takeWhile (fun c => c ≠ '}')
    let rest := s1.dropWhile (fun c => c ≠ '}')
    if content.isEmpty ∨ rest.isEmpty then none else some (content, rest.drop 1)
  else none

/-- Pass 3: sidenotes, with the pre-incremented `_snCounter`. -/
def snPassAux : Nat → Str → Nat → Str × Nat
  | 0, s, n => (s, n)
  | _ + 1, [], n => ([], n)
  | fuel + 1, c :: s, n =>
    if c = '{' then
      match braceTagMatch? "sn".data s with
      | some (content, rest) =>
        let (out, n') := snPassAux fuel rest (n + 1)
        (marginToggleHTML ("sn-".data ++ natRepr (n + 1)) [] "sidenote".data content ++ out, n')
      | none =>
        let (out, n') := snPassAux fuel s n
        (c :: out, n')
    else
      let (out, n') := snPassAux fuel s n
      (c :: out, n')

/-- Pass 4: margin notes, with the pre-incremented `_mnCounter`. -/
def mnPassAux : Nat → Str → Nat → Str × Nat
  | 0, s, n => (s, n)
  | _ + 1, [], n => ([], n)
  | fuel + 1, c :: s, n =>
    if c = '{' then
      match braceTagMatch? "mn".data s with
      | some (content, rest) =>
        let (out, n') := mnPassAux fuel rest (n + 1)
        (marginToggleHTML ("mn-".data ++ natRepr (n + 1)) "&#8853;".data "marginnote".data
          content ++ out, n')
      | none =>
        let (out, n') := mnPassAux fuel s n
        (c :: out, n')
    else
      let (out, n') := mnPassAux fuel s n
      (c :: out, n')

/-- Pass 5: new-thought spans. -/
def ntPassAux : Nat → Str → Str
  | 0, s => s
  | _ + 1, [] => []
  | fuel + 1, c :: s =>
    if c = '{' then
      match braceTagMatch? "newthought".data s with
      | some (content, rest) =>
        "<span class=\"newthought\">".data ++ content ++ "</span>".data ++ ntPassAux fuel rest
      | none => c :: ntPassAux fuel s
    else c :: ntPassAux fuel s

/-- The JS `\w` class. -/
def isWordChar (c : Char) : Bool := c.isAlpha || c.isDigit || c == '_'

/-- The citation-key tail class `[\w:-]`. -/
def isKeyChar (c : Char) : Bool := isWordChar c || c == ':' || c == '-'

/-- Result of trying the citation regex alternatives at one position. -/
inductive CiteMatch
  | urlNamed (name url rest : Str)
  | urlOnly (url rest : Str)
  | keyed (key rest : Str)
  | noMatch
deriving Repr, DecidableEq

/-- The bareword alternative `(?<!\w)@([a-zA-Z][\w:-]*)`; `prev` is the
original character before the `@` (for the lookbehind). -/
def keyedTry (prev : Option Char) (s : Str) : CiteMatch :=
  let prevWord := match prev with | some p => isWordChar p | none => false
  if prevWord then .noMatch
  else
    match s with
    | c :: rest =>
      if c.isAlpha then .keyed (c :: rest.takeWhile isKeyChar) (rest.dropWhile isKeyChar)
      else .noMatch
    | [] => .noMatch

/-- The combined citation regex tried at a position whose `@` has been
consumed (`s` is the text after it), alternatives in source order:
`@url[name][url]`, then `@url[url]`, then bareword `@key`. -/
def citeMatchAt (prev : Option Char) (s : Str) : CiteMatch :=
  if "url[".data.isPrefixOf s then
    let s1 := s.drop 4
    let name := s1.takeWhile (fun c => c ≠ ']')
    let r1 := s1.dropWhile (fun c => c ≠ ']')
    let alt1 : Option (Str × Str × Str) :=
      match r1 with
      | ']' :: '[' :: s2 =>
        let url := s2.takeWhile (fun c => c ≠ ']')
        let r3 := s2.dropWhile (fun c => c ≠ ']')
        if url ≠ [] ∧ r3 ≠ [] then some (name, url, r3.drop 1) else none
      | _ => none
    match alt1 with
    | some (n, u, rest) => .urlNamed n u rest
    | none =>
      if name ≠ [] ∧ r1 ≠ [] then .urlOnly name (r1.drop 1)
      else keyedTry prev s
  else keyedTry prev s

/-- Pass 6: the single combined citation pass.  `prev` tracks the previous
character of the scanned string (the lookbehind examines the input being
scanned, even inside previously matched text). -/
def citePassAux (bib : Bib) (style : CitationStyle) :
    Nat → Option Char → Str → CitState → Str × CitState
  | 0, _, s, st => (s, st)
  | _ + 1, _, [], st => ([], st)
  | fuel + 1, prev, c :: s, st =>
    if c = '@' then
      match citeMatchAt prev s with
      | .urlNamed name url rest =>
        let (html, st') := formatInlineUrlCitation style url name st
        let (out, st'') := citePassAux bib style fuel (some ']') rest st'
        (html ++ out, st'')
      | .urlOnly url rest =>
        let (html, st') := formatInlineUrlCitation style url [] st
        let (out, st'') := citePassAux bib style fuel (some ']') rest st'
        (html ++ out, st'')
      | .keyed key rest =>
        let (html, st') := formatInlineCitation bib style key st
        let (out, st'') := citePassAux bib style fuel (key.getLast?) rest st'
        (html ++ out, st'')
      | .noMatch =>
        let (out, st') := citePassAux bib style fuel (some c) s st
        (c :: out, st')
    else
      let (out, st') := citePassAux bib style fuel (some c) s st
      (c :: out, st')

/-- JS `parseInt(s, 10)`. -/
def jsParseInt? (s : Str) : Option Int :=
  let s1 := s.dropWhile jsWs
  let (sign, s2) : Int × Str :=
    match s1 with
    | '-' :: r => (-1, r)
    | '+' :: r => (1, r)
    | _ => (1, s1)
  let digits := s2.takeWhile (fun c => c.isDigit)
  if digits.isEmpty then none
  else some (sign * (digits.foldl (fun a c => a * 10 + (c.toNat - 48) : Int → Char → Int) 0))

/-- The `sizeStyle` computation of the image callback: a style attribute is
produced exactly when the size group was present, non-empty (falsiness of
`''`), parses to a number (`!isNaN`), and is positive. -/
def sizeStyleOf (size : Option Str) : Str :=
  match size with
  | none => []
  | some s =>
    if s.isEmpty then []
    else
      match jsParseInt? s with
      | none => []
      | some v =>
        if v > 0 then " style=\"width:".data ++ natRepr v.toNat ++ "%\"".data else []

/-- The `imgTag` of the image callback. -/
def imgTagOf (caption : Str) (size : Option Str) (url : Str) : Str :=
  "<img src=\"".data ++ escapeAttr url ++ "\" alt=\"".data ++ escapeAttr caption ++
    "\"".data ++ sizeStyleOf size ++ "/>".data

/-- The image modifiers. -/
inductive ImgMod
  | margin
  | fullwidth
deriving DecidableEq, Repr

/-- The replacement callback of the image pass (parser.js lines 63–77),
with the `_mnCounter` threaded. -/
def imageReplace (caption : Str) (size : Option Str) (url : Str)
    (modifier : Option ImgMod) (mn : Nat) : Str × Nat :=
  let imgTag := imgTagOf caption size url
  match modifier with
  | some .margin =>
    (marginToggleHTML ("mn-fig-".data ++ natRepr (mn + 1)) "&#8853;".data "marginnote".data
      (imgTag ++ (if caption ≠ [] then "<br>".data ++ caption else [])), mn + 1)
  | some .fullwidth =>
    ("<figure class=\"fullwidth\">".data ++ imgTag ++
      (if caption ≠ [] then "<figcaption>".data ++ caption ++ "</figcaption>".data else []) ++
      "</figure>".data, mn)
  | none =>
    ("<figure>".data ++ imgTag ++
      (if caption ≠ [] then "<figcaption>".data ++ caption ++ "</figcaption>".data else []) ++
      "</figure>".data, mn)

/-- The image regex tried at a position whose `!` has been consumed.  When
the optional size group is taken but no `(` follows, backtracking without the
group also fails (the next character is `[`, not `(`), so a single attempt
with the greedy optional group is faithful. -/
def imageMatchAt (s : Str) :
    Option (Str × Option Str × Str × Option ImgMod × Str) :=
  match s with
  | '[' :: s1 =>
    let caption := s1.takeWhile (fun c => c ≠ ']')
    let r1 := s1.dropWhile (fun c => c ≠ ']')
    match r1 with
    | ']' :: r2 =>
      let sized : Option Str × Str :=
        match r2 with
        | '[' :: s2 =>
          let size := s2.takeWhile (fun c => c ≠ ']')
          let r3 := s2.dropWhile (fun c => c ≠ ']')
          match r3 with
          | ']' :: r4 => (some size, r4)
          | _ => (none, r2)
        | _ => (none, r2)
      match sized.2 with
      | '(' :: s3 =>
        let url := s3.takeWhile (fun c => c ≠ ')')
        let r6 := s3.dropWhile (fun c => c ≠ ')')
        if url ≠ [] ∧ r6 ≠ [] then
          let rest := r6.drop 1
          let withMod : Option ImgMod × Str :=
            if ('{' :: ("margin".data ++ ['}'])).isPrefixOf rest then
              (some .margin, rest.drop 8)
            else if ('{' :: ("fullwidth".data ++ ['}'])).isPrefixOf rest then
              (some .fullwidth, rest.drop 11)
            else (none, rest)
          some (caption, sized.1, url, withMod.1, withMod.2)
        else none
      | _ => none
    | _ => none
  | _ => none

/-- Pass 7: images. -/
def imagePassAux : Nat → Str → Nat → Str × Nat
  | 0, s, mn => (s, mn)
  | _ + 1, [], mn => ([], mn)
  | fuel + 1, c :: s, mn =>
    if c = '!' then
      match imageMatchAt s with
      | some (cap, size, url, modif, rest) =>
        let (html, mn') := imageReplace cap size url modif mn
        let (out, mn'') := imagePassAux fuel rest mn'
        (html ++ out, mn'')
      | none =>
        let (out, mn') := imagePassAux fuel s mn
        (c :: out, mn')
    else
      let (out, mn') := imagePassAux fuel s mn
      (c :: out, mn')

/-- Pass 8: links `[text](url)`. -/
def linkPassAux : Nat → Str → Str
  | 0, s => s
  | _ + 1, [] => []
  | fuel + 1, c :: s =>
    if c = '[' then
      let label := s.takeWhile (fun x => x ≠ ']')
      let r1 := s.dropWhile (fun x => x ≠ ']')
      match r1, label with
      | ']' :: '(' :: s2, _ :: _ =>
        let url := s2.takeWhile (fun x => x ≠ ')')
        let r2 := s2.dropWhile (fun x => x ≠ ')')
        if url ≠ [] ∧ r2 ≠ [] then
          "<a href=\"".data ++ escapeAttr url ++ "\">".data ++ label ++ "</a>".data ++
            linkPassAux fuel (r2.drop 1)
        else c :: linkPassAux fuel s
      | _, _ => c :: linkPassAux fuel s
    else c :: linkPassAux fuel s

/-- Pass 9: bold `**text**` (content cannot contain `*`; on failure the scan
advances a single character, as the regex engine does). -/
def boldPassAux : Nat → Str → Str
  | 0, s => s
  | _ + 1, [] => []
  | fuel + 1, '*' :: '*' :: s =>
    let content := s.takeWhile (fun x => x ≠ '*')
    let r := s.dropWhile (fun x => x ≠ '*')
    match r, content with
    | '*' :: '*' :: rest, _ :: _ =>
      "<strong>".data ++ content ++ "</strong>".data ++ boldPassAux fuel rest
    | _, _ => '*' :: boldPassAux fuel ('*' :: s)
  | fuel + 1, c :: s => c :: boldPassAux fuel s

/-- Pass 10: italic `*text*`. -/
def italicPassAux : Nat → Str → Str
  | 0, s => s
  | _ + 1, [] => []
  | fuel + 1, '*' :: s =>
    let content := s.takeWhile (fun x => x ≠ '*')
    let r := s.dropWhile (fun x => x ≠ '*')
    match r, content with
    | '*' :: rest, _ :: _ =>
      "<em>".data ++ content ++ "</em>".data ++ italicPassAux fuel rest
    | _, _ => '*' :: italicPassAux fuel s
  | fuel + 1, c :: s => c :: italicPassAux fuel s

/-- Pass 11: restore placeholders `\x00PH<digits>\x00`.  An index beyond the
placeholder array would read `undefined`, which the replace coerces to the
text "undefined" (possible only when the input itself contained `\x00`). -/
def restorePassAux (ph : List Str) : Nat → Str → Str
  | 0, s => s
  | _ + 1, [] => []
  | fuel + 1, c :: s =>
    if c = '\x00' then
      match s with
      | 'P' :: 'H' :: s2 =>
        let digits := s2.takeWhile (fun x => x.isDigit)
        let r := s2.dropWhile (fun x => x.isDigit)
        match r, digits with
        | '\x00' :: rest, _ :: _ =>
          ph.getD (digits.foldl (fun a x => a * 10 + (x.toNat - 48)) 0) "undefined".data ++
            restorePassAux ph fuel rest
        | _, _ => c :: restorePassAux ph fuel s
      | _ => c :: restorePassAux ph fuel s
    else c :: restorePassAux ph fuel s

/-- `parseInline` from parser.js: the eleven passes in source order, with the
placeholder list shared between the two extraction passes and the final
restore. -/
def parseInline (bib : Bib) (style : CitationStyle) (text : Str)
    (st : RenderState) : Str × RenderState :=
  let (t1, ph1) := extractCodeAux (text.length + 1) text []
  let (t2, ph) := extractMathAux (t1.length + 1) t1 ph1
  let (t3, sn') := snPassAux (t2.length + 1) t2 st.sn
  let (t4, mn1) := mnPassAux (t3.length + 1) t3 st.mn
  let t5 := ntPassAux (t4.length + 1) t4
  let (t6, cit') := citePassAux bib style (t5.length + 1) none t5 st.cit
  let (t7, mn2) := imagePassAux (t6.length + 1) t6 mn1
  let t8 := linkPassAux (t7.length + 1) t7
  let t9 := boldPassAux (t8.length + 1) t8
  let t10 := italicPassAux (t9.length + 1) t9
  let t11 := restorePassAux ph (t10.length + 1) t10
  (t11, ⟨sn', mn2, cit'⟩)

/-! ### Block pass (parser.js `parseMarkdown`)

The JS builds one html string by appending; here the appended fragments are
kept as a list of tagged pieces (section-open, section-close, plain html)
whose concatenation is exactly the JS string, which lets the section
structure be reasoned about. -/

/-- Concatenation of a list of strings. -/
def concatStr (l : List Str) : Str := l.foldr (· ++ ·) []

/-- `src.split('\n')`. -/
def splitNl (s : Str) : List Str := splitOnChar '\n' s

/-- `lines.join('\n')`. -/
def joinLines (ls : List Str) : Str := joinSep ['\n'] ls

/-- The two fence kinds. -/
inductive FenceKind
  | code
  | math
deriving DecidableEq, Repr

/-- Fence detection per line: ```` /^```/ ```` opens or closes a code fence,
a line whose trim is exactly `$$` a math fence. -/
def fenceTypeOf (line : Str) : Option FenceKind :=
  if "```".data.isPrefixOf line then some .code
  else if jsTrim line = "$$".data then some .math
  else none

/-- The line-grouping loop of `parseMarkdown`: blank-line-delimited blocks,
with fenced code and `$$` math blocks kept together; each block carries the
0-based source line of its first line. -/
def groupBlocks : List Str → Nat → Option FenceKind → List Str → Nat →
    List (Str × Nat)
  | [], _, _, cur, curStart =>
    if cur.isEmpty then [] else [(joinLines cur, curStart)]
  | line :: rest, idx, fence, cur, curStart =>
    let ft := fenceTypeOf line
    match fence with
    | some f =>
      if ft = some f then
        (joinLines (cur ++ [line]), curStart) :: groupBlocks rest (idx + 1) none [] curStart
      else groupBlocks rest (idx + 1) fence (cur ++ [line]) curStart
    | none =>
      match ft with
      | some f =>
        (if cur.isEmpty then id else ((joinLines cur, curStart) :: ·))
          (groupBlocks rest (idx + 1) (some f) [line] idx)
      | none =>
        if jsTrim line = [] then
          (if cur.isEmpty then id else ((joinLines cur, curStart) :: ·))
            (groupBlocks rest (idx + 1) none [] curStart)
        else
          let curStart' := if cur.isEmpty then idx else curStart
          groupBlocks rest (idx + 1) none (cur ++ [line]) curStart'

/-- A fragment of the assembled html: a section-opening tag, a
section-closing tag, or any other emitted html. -/
inductive Piece
  | secOpen
  | secClose
  | html (s : Str)
deriving DecidableEq, Repr

/-- The string a piece contributes to the html. -/
def pieceStr : Piece → Str
  | .secOpen => "<section>\n".data
  | .secClose => "</section>\n".data
  | .html s => s

/-- The display-math block match `/^\$\$([\s\S]*?)\$\$$/` (anchored at both
ends without the `m` flag, so the block must start and end with `$$` and be
at least 4 characters). -/
def mathBlockContent? (block : Str) : Option Str :=
  if block.length ≥ 4 ∧ "$$".data.isPrefixOf block ∧ "$$".data.isSuffixOf block then
    some ((block.drop 2).dropLast.dropLast)
  else none

/-- `/^---+$/.test(block.trim())`. -/
def isHrBlock (block : Str) : Bool :=
  let t := jsTrim block
  t.length ≥ 3 && t.all (fun c => c = '-')

/-- The heading match `/^(#{1,6})\s+(.+)$/` (no `m` flag: `$` is
end-of-string and `.` excludes newline).  With 1–6 leading hashes the engine
takes the maximal whitespace run; if nothing follows it, it backtracks one
whitespace character into the text group, which succeeds exactly when the
run has length ≥ 2 and its last character is not a newline. -/
def headingMatch? (block : Str) : Option (Nat × Str) :=
  let hashes := block.takeWhile (fun c => c = '#')
  let r := block.drop hashes.length
  if hashes.length < 1 ∨ hashes.length > 6 then none
  else
    let w := r.takeWhile jsWs
    let t := r.drop w.length
    if w.isEmpty then none
    else if t ≠ [] then
      if t.contains '\n' then none else some (hashes.length, t)
    else
      match w.getLast? with
      | some c => if w.length ≥ 2 ∧ c ≠ '\n' then some (hashes.length, [c]) else none
      | none => none

/-- `/^>\s/.test(block)`. -/
def isEpigraphBlock (block : Str) : Bool :=
  match block with
  | '>' :: c :: _ => jsWs c
  | _ => false

/-- `l.replace(/^>\s?/, '')`. -/
def stripBq (l : Str) : Str :=
  match l with
  | '>' :: rest =>
    match rest with
    | c :: r2 => if jsWs c then r2 else rest
    | [] => []
  | _ => l

/-- `stripped.replace(/^—\s*/, '').replace(/^--\s*/, '')`. -/
def stripFooter (s : Str) : Str :=
  let s1 := match s with
    | '—' :: r => r.dropWhile jsWs
    | _ => s
  match s1 with
  | '-' :: '-' :: r => r.dropWhile jsWs
  | _ => s1

/-- The blockquote line loop: strip the `>` marker, divert attribution lines
(starting with an em-dash or `--`) into the footer (last one wins). -/
def epigraphScan : List Str → List Str → Str → List Str × Str
  | [], content, footer => (content.reverse, footer)
  | l :: ls, content, footer =>
    let stripped := stripBq l
    if stripped.head? = some '—' ∨ "--".data.isPrefixOf stripped then
      epigraphScan ls content (stripFooter stripped)
    else epigraphScan ls (stripped :: content) footer

/-- `/^[-*]\s/`. -/
def isUlLine (l : Str) : Bool :=
  match l with
  | c :: w :: _ => (c = '-' || c = '*') && jsWs w
  | _ => false

/-- `/^\d+\.\s/`. -/
def isOlLine (l : Str) : Bool :=
  let ds := l.takeWhile (fun c => c.isDigit)
  ds ≠ [] &&
    match l.drop ds.length with
    | '.' :: w :: _ => jsWs w
    | _ => false

/-- `l.replace(/^[-*]\s+/, '')` on a matching line. -/
def ulStrip (l : Str) : Str := (l.drop 1).dropWhile jsWs

/-- `l.replace(/^\d+\.\s+/, '')` on a matching line. -/
def olStrip (l : Str) : Str :=
  (((l.dropWhile (fun c => c.isDigit)).drop 1).dropWhile jsWs)

/-- `parseInline` mapped over list items, threading the render state in
document order. -/
def mapParseInline (bib : Bib) (style : CitationStyle) :
    List Str → RenderState → List Str × RenderState
  | [], st => ([], st)
  | x :: xs, st =>
    let (h, st') := parseInline bib style x st
    let (hs, st'') := mapParseInline bib style xs st'
    (h :: hs, st'')

/-- The html and updated state of a fall-through block (epigraph, unordered
list, ordered list, or paragraph), i.e. the classification arms that run
after the implicit-section wrap in the source. -/
def contentBlockHtml (bib : Bib) (style : CitationStyle) (block : Str)
    (dl : Str) (st : RenderState) : Str × RenderState :=
  if isEpigraphBlock block then
    let cf := epigraphScan (splitNl block) [] []
    let q := parseInline bib style (joinSep [' '] cf.1) st
    if cf.2 ≠ [] then
      let f := parseInline bib style cf.2 q.2
      ("<div class=\"epigraph\"".data ++ dl ++ "><blockquote><p>".data ++ q.1 ++
        "</p><footer>".data ++ f.1 ++ "</footer></blockquote></div>\n".data, f.2)
    else
      ("<blockquote".data ++ dl ++ "><p>".data ++ q.1 ++ "</p></blockquote>\n".data, q.2)
  else if isUlLine block then
    let items := (splitNl block).filter isUlLine
    let r := mapParseInline bib style (items.map ulStrip) st
    ("<ul".data ++ dl ++ ['>'] ++
      concatStr (r.1.map (fun h => "<li>".data ++ h ++ "</li>".data)) ++
      "</ul>\n".data, r.2)
  else if isOlLine block then
    let items := (splitNl block).filter isOlLine
    let r := mapParseInline bib style (items.map olStrip) st
    ("<ol".data ++ dl ++ ['>'] ++
      concatStr (r.1.map (fun h => "<li>".data ++ h ++ "</li>".data)) ++
      "</ol>\n".data, r.2)
  else
    let r := parseInline bib style (block.map (fun c => if c = '\n' then ' ' else c)) st
    ("<p".data ++ dl ++ ['>'] ++ r.1 ++ "</p>\n".data, r.2)

/-- One iteration of the block loop: the pieces the block contributes and
the updated `(inSection, openedImplicitSection, state)`. -/
def renderBlock (bib : Bib) (style : CitationStyle) (block : Str) (bl : Nat)
    (inSec opImp : Bool) (st : RenderState) :
    List Piece × Bool × Bool × RenderState :=
  let dl := " data-line=\"".data ++ natRepr bl ++ "\"".data
  if "```".data.isPrefixOf block then
    let codeLines := splitNl block
    let lang := jsTrim ((codeLines.headD []).drop 3)
    let code := escapeHtml (joinLines ((codeLines.drop 1).dropLast))
    ([.html ("<pre".data ++ dl ++ "><code".data ++
      (if lang ≠ [] then " class=\"language-".data ++ lang ++ "\"".data else []) ++
      ['>'] ++ code ++ "</code></pre>\n".data)], inSec, opImp, st)
  else if (mathBlockContent? block).isSome ∧ jsTrim ((mathBlockContent? block).getD []) ≠ [] then
    ([.html ("<div class=\"math-display\"".data ++ dl ++ ['>'] ++
      escapeHtml (jsTrim ((mathBlockContent? block).getD [])) ++ "</div>\n".data)],
      inSec, opImp, st)
  else if isHrBlock block then
    ([.html ("<hr".data ++ dl ++ "/>\n".data)], inSec, opImp, st)
  else
    match headingMatch? block with
    | some (level, text) =>
      let r := parseInline bib style text st
      let hHtml := Piece.html ("<h".data ++ natRepr level ++ dl ++ ['>'] ++ r.1 ++
        "</h".data ++ natRepr level ++ ">\n".data)
      if level = 2 ∨ level = 3 then
        ((if inSec ∨ opImp then [Piece.secClose] else []) ++ [Piece.secOpen, hHtml],
          true, false, r.2)
      else ([hHtml], inSec, opImp, r.2)
    | none =>
      let wrap := ¬(inSec ∨ opImp)
      let pre := if wrap then [Piece.secOpen] else []
      let opImp' := if wrap then true else opImp
      let r := contentBlockHtml bib style block dl st
      (pre ++ [.html r.1], inSec, opImp', r.2)

/-- The block loop of `parseMarkdown`. -/
def blocksLoop (bib : Bib) (style : CitationStyle) :
    List (Str × Nat) → Bool → Bool → RenderState →
    List Piece × Bool × Bool × RenderState
  | [], inSec, opImp, st => ([], inSec, opImp, st)
  | (block, bl) :: rest, inSec, opImp, st =>
    let r := renderBlock bib style block bl inSec opImp st
    let q := blocksLoop bib style rest r.2.1 r.2.2.1 r.2.2.2
    (r.1 ++ q.1, q.2.1, q.2.2.1, q.2.2.2)

/-- `parseMarkdown` as a piece list: the block loop from the freshly reset
state `st0`, the final section close, and the appended references section. -/
def parseMarkdownPieces (bib : Bib) (style : CitationStyle) (st0 : RenderState)
    (src : Str) : List Piece × RenderState :=
  let blocks := groupBlocks (splitNl src) 0 none [] 0
  let r := blocksLoop bib style blocks false false st0
  (r.1 ++ (if r.2.1 ∨ r.2.2.1 then [Piece.secClose] else []) ++
    [.html (renderReferencesSection bib style r.2.2.2.cit)], r.2.2.2)

/-- `parseMarkdown` from parser.js: resets the sidenote/margin counters and
the citation tracker (so the incoming module state `st` is discarded), then
assembles the html. -/
def parseMarkdown (bib : Bib) (style : CitationStyle) (st : RenderState)
    (src : Str) : Str × RenderState :=
  let r := parseMarkdownPieces bib style ⟨0, 0, resetCitationTracking⟩ src
  (concatStr (r.1.map pieceStr), r.2)

example : normalizeAuthors "Smith, John".data = "John Smith".data := by decide
example : normalizeAuthors "A B and C D and E F".data = "A B, C D & E F".data := by decide
example : getLastName "John Smith".data = "Smith".data := by decide
example : formatAPAAuthors "John Smith".data = "Smith, J.".data := by decide
example : replaceDots "a...b".data = "a..b".data := by decide

/-! ### Claim-level definitions -/

/-- A citation call made during one render: a keyed `@key` citation or a URL
citation `@url[...]` (`name = []` models both the absent and the empty
display name, which the source treats identically). -/
inductive CiteCall
  | keyed (key : Str)
  | url (u name : Str)
deriving Repr, DecidableEq

/-- The dedup/numbering identifier of a call: the lowercased key, or the
synthetic `__url__` + literal url. -/
def identOf : CiteCall → Str
  | .keyed k => lowerStr k
  | .url u _ => "__url__".data ++ u

/-- A sequence of citation calls through the real formatters, threading the
tracker state; returns the emitted html fragments. -/
def runCitations (bib : Bib) (style : CitationStyle) :
    List CiteCall → CitState → List Str × CitState
  | [], st => ([], st)
  | c :: cs, st =>
    let r := match c with
      | .keyed k => formatInlineCitation bib style k st
      | .url u n => formatInlineUrlCitation style u n st
    let q := runCitations bib style cs r.2
    (r.1 :: q.1, q.2)

/-- The same sequence at the `trackCitation` level: the assigned numbers. -/
def trackRun : List Str → CitState → List Nat × CitState
  | [], st => ([], st)
  | k :: ks, st =>
    let r := trackCitation k st
    let q := trackRun ks r.2
    (r.1 :: q.1, q.2)

/-- First-occurrence deduplication with an accumulator of already-seen
identifiers in first-use order. -/
def dedupFO : List Str → List Str → List Str
  | acc, [] => acc
  | acc, x :: xs => dedupFO (if x ∈ acc then acc else acc ++ [x]) xs

/-- The distinct identifiers of `l` in first-occurrence order. -/
def firstOcc (l : List Str) : List Str := dedupFO [] l

/-- Depth scan of the emitted section tags: opens allowed only at depth 0,
closes only at depth 1; returns the final depth, or `none` on nesting or
imbalance. -/
def secScan : List Piece → Nat → Option Nat
  | [], d => some d
  | .secOpen :: ps, d => if d = 0 then secScan ps 1 else none
  | .secClose :: ps, d => if d = 1 then secScan ps 0 else none
  | .html _ :: ps, d => secScan ps d

/-- The emitted section tags are balanced, non-nested, and all closed. -/
def balancedSections (ps : List Piece) : Prop := secScan ps 0 = some 0

/-- The pattern whose absence "contains no `<figure` element" asserts. -/
def figPat : Str := "<figure".data

/-- A sample bibliography entry (the spec's `smith2020`). -/
def smithEntry : BibObj :=
  [("key".data, "smith2020".data), ("type".data, "article".data),
   ("author".data, "Smith, John".data), ("year".data, "2020".data),
   ("title".data, "A Title".data)]

/-- A one-entry bibliography store. -/
def sampleBib : Bib := [("smith2020".data, smithEntry)]

/-- An entry with only an author field (ending in an APA initial). -/
def authorOnlyEntry : BibObj :=
  [("key".data, "smith".data), ("type".data, "misc".data),
   ("author".data, "John Smith".data)]

/-- BibTeX text whose entry has an unbalanced outer brace. -/
def bibUnbalanced : Str :=
  "@article".data ++ '{' :: "x, title = ".data ++ '{' :: "Unclosed".data

/-- What C2 claims of a key whose lookup misses: the inline error marker with
the escaped literal key, an unchanged tracker, and an unchanged references
section. -/
def C2Spec (bib : Bib) (style : CitationStyle) (key : Str) (st : CitState) : Prop :=
  formatInlineCitation bib style key st =
    ("<span class=\"citation-error\">[@".data ++ escapeHtml key ++ "]</span>".data, st) ∧
  renderReferencesSection bib style (formatInlineCitation bib style key st).2 =
    renderReferencesSection bib style st

/-- What C1 claims of a render's citation sequence: the real calls drive the
tracker exactly as `trackCitation` over the identifiers does; the tracker
ends with the distinct identifiers in first-use order and the counter at
their count; the number assigned at each position is `1 +` the count of
distinct identifiers first-cited strictly before it; the numbers of the
distinct identifiers in first-occurrence order are exactly `1..N`; a repeat
leaves the tracker untouched; and under the numbered style the `j`-th
emitted html carries the `j`-th assigned number as its `[n]` marker. -/
def C1Spec (bib : Bib) (style : CitationStyle) (calls : List CiteCall) : Prop :=
  let idents := calls.map identOf
  let run := runCitations bib style calls resetCitationTracking
  let tr := trackRun idents resetCitationTracking
  run.2.citedKeys = tr.2.citedKeys ∧
  run.2.citeCounter = tr.2.citeCounter ∧
  tr.2.citedKeys = firstOcc idents ∧
  tr.2.citeCounter = (firstOcc idents).length ∧
  (∀ j, j < idents.length →
    tr.1.getD j 0 = idxOfStr (idents.getD j []) (firstOcc idents) + 1) ∧
  ((firstOcc idents).map (fun x => idxOfStr x (firstOcc idents) + 1) =
    List.range' 1 (firstOcc idents).length) ∧
  (∀ j, j < idents.length → idents.getD j [] ∈ idents.take j →
    (trackRun (idents.take (j + 1)) resetCitationTracking).2 =
      (trackRun (idents.take j) resetCitationTracking).2) ∧
  (style = .numbered → ∀ j, j < calls.length →
    hasSub ('[' :: natRepr (tr.1.getD j 0) ++ [']']) (run.1.getD j []) = true)

/-- What C6 claims of one image token: the margin form is the margin-note
toggle wrapping the img (plus `<br>` + caption when non-empty) and contains
no `<figure`; the fullwidth form is a figure with the fullwidth class; the
unmodified form a plain figure; a `<figcaption>` appears in the non-margin
forms exactly when the caption is non-empty; and a width style is emitted
exactly for a positive parsed size. -/
def C6Spec (caption : Str) (size : Option Str) (url : Str) (mn : Nat) : Prop :=
  (imageReplace caption size url (some .margin) mn).1 =
    marginToggleHTML ("mn-fig-".data ++ natRepr (mn + 1)) "&#8853;".data "marginnote".data
      (imgTagOf caption size url ++ (if caption ≠ [] then "<br>".data ++ caption else [])) ∧
  hasSub figPat (imageReplace caption size url (some .margin) mn).1 = false ∧
  (∃ t, (imageReplace caption size url (some .fullwidth) mn).1 =
    "<figure class=\"fullwidth\">".data ++ t) ∧
  (∃ t, (imageReplace caption size url none mn).1 = "<figure>".data ++ t) ∧
  (∀ m : Option ImgMod, m ≠ some .margin →
    (hasSub "<figcaption>".data (imageReplace caption size url m mn).1 = true ↔
      caption ≠ [])) ∧
  (∀ s v, size = some s → s ≠ [] → jsParseInt? s = some v → 0 < v →
    sizeStyleOf size = " style=\"width:".data ++ natRepr v.toNat ++ "%\"".data) ∧
  ((size = none ∨ size = some [] ∨ jsParseInt? (size.getD []) = none ∨
      (∀ v, jsParseInt? (size.getD []) = some v → v ≤ 0)) →
    sizeStyleOf size = [])

/-- What C7 claims of citing the same url twice (from a state that has not
seen it, with the counter in sync): both calls succeed with a citation link;
the second call adds no identifier and does not advance the counter; the
stored record keeps the first-citation number, and a non-empty new display
name overwrites the stored name (last write wins) while an empty one leaves
it. -/
def C7Spec (style : CitationStyle) (url n1 n2 : Str) (st : CitState) : Prop :=
  let n := st.citedKeys.length + 1
  let r1 := formatInlineUrlCitation style url n1 st
  let r2 := formatInlineUrlCitation style url n2 r1.2
  (∃ t, r1.1 = "<a class=\"citation\" href=\"#ref-".data ++ t) ∧
  (∃ t, r2.1 = "<a class=\"citation\" href=\"#ref-".data ++ t) ∧
  r2.2.citedKeys = r1.2.citedKeys ∧
  r2.2.citeCounter = r1.2.citeCounter ∧
  r1.2.urlCitations.find? (fun u => u.url == url) = some ⟨url, n1, n⟩ ∧
  r2.2.urlCitations.find? (fun u => u.url == url) =
    some ⟨url, (if n2 ≠ [] then n2 else n1), n⟩

/-! ### Theorems -/

/-- C9: with the bibliography store and citation style held fixed, the html
produced by `parseMarkdown` is independent of the incoming module state (the
sidenote/margin counters and the citation tracker are reset at its start),
so two successive renders of the same text are byte-identical. -/
theorem parseMarkdown_deterministic (bib : Bib) (style : CitationStyle)
    (st st' : RenderState) (src : Str) :
    (parseMarkdown bib style st src).1 = (parseMarkdown bib style st' src).1 ∧
    (parseMarkdown bib style (parseMarkdown bib style st src).2 src).1 =
      (parseMarkdown bib style st src).1 :=
  ⟨rfl, rfl⟩

/-- C2: a key whose case-insensitive lookup misses produces the inline error
marker embedding the HTML-escaped literal key, leaves the tracker state
unchanged, and contributes no item to the references section. -/
theorem formatInlineCitation_unknown_key (bib : Bib) (style : CitationStyle)
    (key : Str) (st : CitState) (h : assocGet? bib (lowerStr key) = none) :
    C2Spec bib style key st := by
  unfold C2Spec
  simp only [formatInlineCitation, h]
  exact ⟨trivial, trivial⟩

/-- C2 witness: citing `@nope` against the sample bibliography. -/
theorem formatInlineCitation_unknown_key_witness :
    C2Spec sampleBib .numbered "nope".data resetCitationTracking :=
  formatInlineCitation_unknown_key sampleBib .numbered "nope".data
    resetCitationTracking (by decide)

/-- C8 (code bug record): an APA reference whose last part ends with an
author initial gains a double period, because the final `+ '.'` is appended
after the `..` cleanup; evaluated on an author-only entry. -/
theorem formatAPAReference_double_period :
    formatAPAReference authorOnlyEntry = "Smith, J..".data ∧
    hasSub "..".data (formatAPAReference authorOnlyEntry) = true :=
  ⟨by decide, by decide⟩

/-- C4 (code bug record): a code span nested inside a math span is swallowed
into the math placeholder, so its content is never restored into the output
(the sentinel token remains in its place and the `<code>` element never
appears). -/
theorem parseInline_code_in_math_not_restored :
    (parseInline [] .numbered "$a `**x**` b$".data ⟨0, 0, resetCitationTracking⟩).1 =
      "<span class=\"math-inline\">a \x00PH0\x00 b</span>".data ∧
    hasSub "<code>".data
      (parseInline [] .numbered "$a `**x**` b$".data ⟨0, 0, resetCitationTracking⟩).1 =
      false :=
  ⟨by decide, by decide⟩

/-- C10 (code bug record): a NUL-free input whose code span sits inside a
math span makes the restore pass leave an inner placeholder token in the
output, so the NUL sentinel leaks into rendered html. -/
theorem parseInline_sentinel_leak :
    ¬ ('\x00' ∈ "$x `y` z$".data) ∧
    '\x00' ∈ (parseInline [] .numbered "$x `y` z$".data ⟨0, 0, resetCitationTracking⟩).1 :=
  ⟨by decide, by decide⟩

/-- C5 counterexample: a document whose text itself contains the literal
`<section>` makes the substring counts of `<section>` and `</section>` in
the final html differ (2 against 1), refuting the count form of the claim. -/
theorem parseMarkdown_literal_section_tag_counts :
    countSub "<section>".data
      (parseMarkdown [] .numbered ⟨0, 0, resetCitationTracking⟩ "<section>".data).1 = 2 ∧
    countSub "</section>".data
      (parseMarkdown [] .numbered ⟨0, 0, resetCitationTracking⟩ "<section>".data).1 = 1 ∧
    ¬ (countSub "<section>".data
        (parseMarkdown [] .numbered ⟨0, 0, resetCitationTracking⟩ "<section>".data).1 =
       countSub "</section>".data
        (parseMarkdown [] .numbered ⟨0, 0, resetCitationTracking⟩ "<section>".data).1) :=
  ⟨by decide, by decide, by decide⟩

/-! ### Substring lemmas -/

theorem hasSub_spec (p s : Str) : hasSub p s = true ↔ p <:+: s := by
  induction s with
  | nil => simp [hasSub, List.infix_nil, List.isEmpty_iff]
  | cons c s ih => simp [hasSub, ih, List.infix_cons_iff, List.isPrefixOf_iff_prefix]

theorem hasSub_intro {p s : Str} (h : p <:+: s) : hasSub p s = true :=
  (hasSub_spec p s).mpr h

theorem hasSub_cons {p s : Str} (c : Char) (h : hasSub p s = true) :
    hasSub p (c :: s) = true := by
  simp [hasSub, h]

/-- An occurrence of `p` in `a ++ b` lies in `a`, lies in `b`, or crosses the
boundary, starting at a non-empty suffix of `a` shorter than `p`. -/
theorem hasSub_append_elim {p a b : Str} (h : hasSub p (a ++ b) = true) :
    hasSub p a = true ∨ hasSub p b = true ∨
    ∃ t, t ≠ [] ∧ t <:+ a ∧ t.length < p.length ∧ p.isPrefixOf (t ++ b) = true := by
  induction a with
  | nil => exact Or.inr (Or.inl h)
  | cons c a ih =>
    rw [List.cons_append] at h
    simp only [hasSub, Bool.or_eq_true] at h
    rcases h with h | h
    · rw [← List.cons_append] at h
      by_cases hl : p.length ≤ (c :: a).length
      · left
        have hp : p <+: (c :: a) ++ b := List.isPrefixOf_iff_prefix.mp h
        have hpa : p <+: c :: a :=
          List.prefix_of_prefix_length_le hp (List.prefix_append _ _) hl
        exact hasSub_intro hpa.isInfix
      · right; right
        exact ⟨c :: a, by simp, List.suffix_refl _, by omega, h⟩
    · rcases ih h with h' | h' | ⟨t, ht1, ht2, ht3, ht4⟩
      · exact Or.inl (hasSub_cons c h')
      · exact Or.inr (Or.inl h')
      · exact Or.inr (Or.inr ⟨t, ht1, ht2.trans (List.suffix_cons c a), ht3, ht4⟩)

/-- A prefix of `a₂ ++ b` no shorter than `a₂` starts with `a₂` and continues
into a prefix of `b`. -/
theorem prefix_append_split {p a₂ b : Str} (h : p.isPrefixOf (a₂ ++ b) = true)
    (hl : a₂.length ≤ p.length) :
    p.take a₂.length = a₂ ∧ (p.drop a₂.length).isPrefixOf b = true := by
  rcases List.isPrefixOf_iff_prefix.mp h with ⟨r, hr⟩
  have hsplit : p.take a₂.length ++ (p.drop a₂.length ++ r) = a₂ ++ b := by
    rw [← List.append_assoc, List.take_append_drop]; exact hr
  have hlen : (p.take a₂.length).length = a₂.length := by
    simp [List.length_take]; omega
  obtain ⟨h1, h2⟩ := List.append_inj hsplit hlen
  exact ⟨h1, List.isPrefixOf_iff_prefix.mpr ⟨r, h2⟩⟩

/-- Composition from the left over a concrete piece: no occurrence inside it
and no non-trivial pattern prefix as its suffix means no occurrence crosses
out of it. -/
theorem hasSub_append_false_left {p F b : Str}
    (hF : hasSub p F = false)
    (hFs : ∀ k, k < p.length → 0 < k → ¬ (p.take k <:+ F))
    (hb : hasSub p b = false) :
    hasSub p (F ++ b) = false := by
  by_contra hc
  rcases hasSub_append_elim (by simpa using hc) with h | h | ⟨t, ht1, ht2, ht3, ht4⟩
  · rw [hF] at h; cases h
  · rw [hb] at h; cases h
  · obtain ⟨hteq, -⟩ := prefix_append_split ht4 (Nat.le_of_lt ht3)
    have htpos : 0 < t.length := List.length_pos.mpr ht1
    exact hFs t.length ht3 htpos (by rw [hteq]; exact ht2)

/-- Composition from the right over a concrete piece: no occurrence inside
either part, and no non-trivial pattern tail a prefix of the right part. -/
theorem hasSub_append_false_right {p a b : Str}
    (ha : hasSub p a = false)
    (hb : hasSub p b = false)
    (hbs : ∀ k, k < p.length → 0 < k → (p.drop k).isPrefixOf b = false) :
    hasSub p (a ++ b) = false := by
  by_contra hc
  rcases hasSub_append_elim (by simpa using hc) with h | h | ⟨t, ht1, ht2, ht3, ht4⟩
  · rw [ha] at h; cases h
  · rw [hb] at h; cases h
  · obtain ⟨-, hpb⟩ := prefix_append_split ht4 (Nat.le_of_lt ht3)
    have htpos : 0 < t.length := List.length_pos.mpr ht1
    rw [hbs t.length ht3 htpos] at hpb; cases hpb

/-- Composition over a piece not containing the pattern's head character. -/
theorem hasSub_append_head_notin {c : Char} {q a b : Str} (h : c ∉ a)
    (hb : hasSub (c :: q) b = false) :
    hasSub (c :: q) (a ++ b) = false := by
  induction a with
  | nil => simpa using hb
  | cons x a ih =>
    have hx : c ≠ x := by intro he; exact h (he ▸ List.mem_cons_self x a)
    have ha : c ∉ a := fun hm => h (List.mem_cons_of_mem x hm)
    rw [List.cons_append]
    simp only [hasSub, Bool.or_eq_false_iff]
    constructor
    · simp [List.isPrefixOf]
      intro he; exact absurd he hx
    · exact ih ha

/-- A string without the pattern's head character does not contain it. -/
theorem hasSub_eq_false_of_head_notin {c : Char} {q s : Str} (h : c ∉ s) :
    hasSub (c :: q) s = false := by
  have := hasSub_append_head_notin (q := q) h (b := []) (by simp [hasSub])
  simpa using this

theorem hasSub_append_right {p a b : Str} (h : hasSub p b = true) :
    hasSub p (a ++ b) = true := by
  rw [hasSub_spec] at h ⊢
  exact h.trans ⟨a, [], by simp⟩

theorem hasSub_self_append (p b : Str) : hasSub p (p ++ b) = true :=
  hasSub_intro (List.prefix_append p b).isInfix

theorem digitChar_isDigit (d : Nat) : (digitChar d).isDigit = true := by
  unfold digitChar
  split_ifs <;> decide

theorem mem_natReprAux_isDigit (f : Nat) :
    ∀ n c, c ∈ natReprAux f n → c.isDigit = true := by
  induction f with
  | zero => intro n c hc; simp [natReprAux] at hc
  | succ f ih =>
    intro n c hc
    simp only [natReprAux] at hc
    split at hc
    · simp at hc; subst hc; exact digitChar_isDigit n
    · rcases List.mem_append.mp hc with h | h
      · exact ih _ _ h
      · simp at h; subst h; exact digitChar_isDigit _

theorem natRepr_no_lt (n : Nat) : '<' ∉ natRepr n := by
  intro h
  have := mem_natReprAux_isDigit (n + 1) n '<' h
  simp [Char.isDigit] at this

theorem escapeAttr_piece_no_lt (c : Char) :
    '<' ∉ (if c = '&' then "&amp;".data else if c = '"' then "&quot;".data
      else if c = '<' then "&lt;".data else if c = '>' then "&gt;".data else [c]) := by
  split_ifs with h1 h2 h3 h4
  · decide
  · decide
  · decide
  · decide
  · simp
    exact fun he => h3 he.symm

theorem escapeAttr_no_lt (s : Str) : '<' ∉ escapeAttr s := by
  induction s with
  | nil => simp [escapeAttr]
  | cons c s ih =>
    intro h
    rw [show escapeAttr (c :: s) =
      (if c = '&' then "&amp;".data else if c = '"' then "&quot;".data
        else if c = '<' then "&lt;".data else if c = '>' then "&gt;".data else [c]) ++
      escapeAttr s from rfl] at h
    rcases List.mem_append.mp h with h | h
    · exact escapeAttr_piece_no_lt c h
    · exact ih h

theorem sizeStyleOf_no_lt (size : Option Str) : '<' ∉ sizeStyleOf size := by
  cases size with
  | none => simp [sizeStyleOf]
  | some s =>
    simp only [sizeStyleOf]
    split_ifs with he
    · simp
    · cases hp : jsParseInt? s with
      | none => simp
      | some v =>
        simp only []
        show '<' ∉ (if v > 0 then
          " style=\"width:".data ++ natRepr v.toNat ++ "%\"".data else [])
        split_ifs with hv
        · intro hm
          rcases List.mem_append.mp hm with h1 | h1
          · rcases List.mem_append.mp h1 with h2 | h2
            · simp at h2
            · exact natRepr_no_lt _ h2
          · simp at h1
        · simp

/-! ### C6: image token forms -/

/-- The margin image form contains no `<figure` beyond any the caption text
itself carries. -/
theorem imageReplace_margin_no_figure (caption : Str) (size : Option Str)
    (url : Str) (mn : Nat) (hcap : hasSub figPat caption = false) :
    hasSub figPat (imageReplace caption size url (some .margin) mn).1 = false := by
  have hfig : figPat = '<' :: "figure".data := rfl
  rw [hfig] at hcap
  by_cases hne : caption = []
  · subst hne
    simp only [imageReplace, marginToggleHTML, imgTagOf, List.append_assoc,
      List.isEmpty_cons, if_false, Bool.false_eq_true, List.nil_append, ne_eq,
      not_true_eq_false, List.append_nil]
    rw [hfig]
    repeat
      first
      | exact (by decide)
      | apply hasSub_append_head_notin (natRepr_no_lt _)
      | apply hasSub_append_head_notin (escapeAttr_no_lt _)
      | apply hasSub_append_head_notin (sizeStyleOf_no_lt _)
      | apply hasSub_append_false_left (by decide) (by decide)
  · simp only [imageReplace, marginToggleHTML, imgTagOf, if_pos hne, List.append_assoc,
      List.isEmpty_cons, if_false, Bool.false_eq_true, List.nil_append]
    rw [hfig]
    repeat
      first
      | exact hasSub_append_false_right hcap (by decide) (by decide)
      | exact (by decide)
      | apply hasSub_append_head_notin (natRepr_no_lt _)
      | apply hasSub_append_head_notin (escapeAttr_no_lt _)
      | apply hasSub_append_head_notin (sizeStyleOf_no_lt _)
      | apply hasSub_append_false_left (by decide) (by decide)

/-- A non-margin image form with an empty caption emits no `<figcaption>`. -/
theorem imageReplace_empty_caption_no_figcaption (size : Option Str) (url : Str)
    (mn : Nat) (m : Option ImgMod) (hm : m ≠ some ImgMod.margin) :
    hasSub "<figcaption>".data (imageReplace [] size url m mn).1 = false := by
  match m with
  | some .margin => exact absurd rfl hm
  | some .fullwidth | none =>
    simp only [imageReplace, imgTagOf, List.append_assoc, ne_eq, not_true_eq_false,
      if_false, Bool.false_eq_true, List.nil_append, List.append_nil]
    repeat
      first
      | exact (by decide)
      | apply hasSub_append_head_notin (natRepr_no_lt _)
      | apply hasSub_append_head_notin (escapeAttr_no_lt _)
      | apply hasSub_append_head_notin (sizeStyleOf_no_lt _)
      | apply hasSub_append_false_left (by decide) (by decide)

/-- A non-margin image form with a non-empty caption emits a `<figcaption>`. -/
theorem imageReplace_nonempty_caption_figcaption (caption : Str) (size : Option Str)
    (url : Str) (mn : Nat) (m : Option ImgMod) (hm : m ≠ some ImgMod.margin)
    (hne : caption ≠ []) :
    hasSub "<figcaption>".data (imageReplace caption size url m mn).1 = true := by
  match m with
  | some .margin => exact absurd rfl hm
  | some .fullwidth | none =>
    simp only [imageReplace, imgTagOf, if_pos hne, List.append_assoc]
    apply hasSub_append_right
    apply hasSub_append_right
    apply hasSub_append_right
    apply hasSub_append_right
    apply hasSub_append_right
    apply hasSub_append_right
    apply hasSub_append_right
    exact hasSub_self_append _ _

/-- C6: the image callback's four output shapes behave as specified, with
the one proviso the counterexample forces — the caption text itself must not
contain `<figure` for the margin form to contain none. -/
theorem imageReplace_forms (caption : Str) (size : Option Str) (url : Str)
    (mn : Nat) (hcap : hasSub figPat caption = false) :
    C6Spec caption size url mn := by
  refine ⟨rfl, imageReplace_margin_no_figure caption size url mn hcap,
    ⟨imgTagOf caption size url ++
      ((if caption ≠ [] then "<figcaption>".data ++ caption ++ "</figcaption>".data else []) ++
        "</figure>".data), by simp [imageReplace, List.append_assoc]⟩,
    ⟨imgTagOf caption size url ++
      ((if caption ≠ [] then "<figcaption>".data ++ caption ++ "</figcaption>".data else []) ++
        "</figure>".data), by simp [imageReplace, List.append_assoc]⟩, ?_, ?_, ?_⟩
  · intro m hm
    constructor
    · intro hfc
      intro hceq
      subst hceq
      rw [imageReplace_empty_caption_no_figcaption size url mn m hm] at hfc
      cases hfc
    · intro hne
      exact imageReplace_nonempty_caption_figcaption caption size url mn m hm hne
  · intro s v hs hsne hparse hv
    subst hs
    simp only [sizeStyleOf]
    rw [if_neg (by simp [List.isEmpty_iff, hsne]), hparse]
    show (if v > 0 then " style=\"width:".data ++ natRepr v.toNat ++ "%\"".data else []) = _
    rw [if_pos hv]
  · intro hdisj
    cases size with
    | none => rfl
    | some s =>
      rcases hdisj with h | h | h | h
      · cases h
      · injection h with h
        subst h
        simp [sizeStyleOf]
      · simp only [Option.getD] at h
        simp only [sizeStyleOf]
        split_ifs with he
        · rfl
        · rw [h]
      · simp only [Option.getD] at h
        simp only [sizeStyleOf]
        split_ifs with he
        · rfl
        · cases hp : jsParseInt? s with
          | none => rfl
          | some v =>
            show (if v > 0 then " style=\"width:".data ++ natRepr v.toNat ++ "%\"".data
              else []) = []
            rw [if_neg (not_lt.mpr (h v hp))]

/-- C6 witness: a concrete token `![Cap][30](a.jpg)` in each modifier form. -/
theorem imageReplace_forms_witness : C6Spec "Cap".data (some "30".data) "a.jpg".data 0 :=
  imageReplace_forms "Cap".data (some "30".data) "a.jpg".data 0 (by decide)

/-! ### C5: section balance -/

theorem secScan_append (ps qs : List Piece) (d : Nat) :
    secScan (ps ++ qs) d =
      match secScan ps d with
      | some e => secScan qs e
      | none => none := by
  induction ps generalizing d with
  | nil => rfl
  | cons p ps ih =>
    cases p with
    | secOpen =>
      simp only [List.cons_append, secScan]
      split_ifs <;> simp [ih]
    | secClose =>
      simp only [List.cons_append, secScan]
      split_ifs <;> simp [ih]
    | html s =>
      simp only [List.cons_append, secScan]
      exact ih d

/-- Each block keeps the section depth aligned with the
`(inSection, openedImplicitSection)` flags and never nests. -/
theorem renderBlock_secScan (bib : Bib) (style : CitationStyle) (block : Str)
    (bl : Nat) (inSec opImp : Bool) (st : RenderState) :
    secScan (renderBlock bib style block bl inSec opImp st).1
        (if inSec ∨ opImp then 1 else 0) =
      some (if (renderBlock bib style block bl inSec opImp st).2.1 ∨
          (renderBlock bib style block bl inSec opImp st).2.2.1 then 1 else 0) := by
  unfold renderBlock
  by_cases hio : (inSec = true ∨ opImp = true)
  · split_ifs <;> try simp only [secScan, hio, if_true, if_pos, List.nil_append]
    all_goals try (split <;> split_ifs <;> simp_all [secScan])
  · split_ifs <;> try simp only [secScan, hio, if_false, List.nil_append]
    all_goals try (split <;> split_ifs <;> simp_all [secScan])

/-- The block loop keeps the depth aligned with its flags. -/
theorem blocksLoop_secScan (bib : Bib) (style : CitationStyle)
    (blocks : List (Str × Nat)) :
    ∀ inSec opImp st,
      secScan (blocksLoop bib style blocks inSec opImp st).1
          (if inSec ∨ opImp then 1 else 0) =
        some (if (blocksLoop bib style blocks inSec opImp st).2.1 ∨
            (blocksLoop bib style blocks inSec opImp st).2.2.1 then 1 else 0) := by
  induction blocks with
  | nil => intro inSec opImp st; simp [blocksLoop, secScan]
  | cons b rest ih =>
    intro inSec opImp st
    obtain ⟨block, bl⟩ := b
    simp only [blocksLoop]
    rw [secScan_append, renderBlock_secScan]
    exact ih _ _ _

/-- C5 (amended): in every render the assembler's emitted section tags are
balanced and never nested — every open happens at depth 0, every close at
depth 1, and the document ends closed; and `parseMarkdown`'s html is exactly
the concatenation of those pieces.  On a document whose text does not inject
literal tags (the spec's own scenario: body text, then a level-2 heading,
then more text) the literal `<section>`/`</section>` substring counts agree
as well. -/
theorem parseMarkdown_sections_balanced (bib : Bib) (style : CitationStyle)
    (st0 st : RenderState) (src : Str) :
    balancedSections (parseMarkdownPieces bib style st0 src).1 ∧
    (parseMarkdown bib style st src).1 =
      concatStr ((parseMarkdownPieces bib style ⟨0, 0, resetCitationTracking⟩ src).1.map
        pieceStr) ∧
    countSub "<section>".data
        (parseMarkdown [] .numbered ⟨0, 0, resetCitationTracking⟩
          "intro\n\n## A\n\ntext".data).1 =
      countSub "</section>".data
        (parseMarkdown [] .numbered ⟨0, 0, resetCitationTracking⟩
          "intro\n\n## A\n\ntext".data).1 := by
  refine ⟨?_, rfl, by decide⟩
  unfold balancedSections parseMarkdownPieces
  have hb := blocksLoop_secScan bib style (groupBlocks (splitNl src) 0 none [] 0)
    false false st0
  simp only [Bool.false_eq_true, or_self, if_false] at hb
  rw [secScan_append, secScan_append, hb]
  by_cases hf : ((blocksLoop bib style (groupBlocks (splitNl src) 0 none [] 0)
      false false st0).2.1 = true ∨
      (blocksLoop bib style (groupBlocks (splitNl src) 0 none [] 0)
        false false st0).2.2.1 = true)
  · simp [hf, secScan]
  · simp [hf, secScan]

/-! ### C3: BibTeX parser error recovery -/

/-- C3: `parseBibTeX` is total (the scan loop terminates on every input,
by the strictly advancing cursor, and returns a map); when the entry whose
`@` the scan found has an opening brace but its braces never balance, the
loop stops cleanly and returns exactly the entries accumulated so far; and
an entry of type `string`, `preamble` or `comment` with balanced braces
contributes nothing — the loop continues past it with the entries
unchanged. -/
theorem parseBibTeX_error_recovery (text : Str) (i : Nat)
    (entries : List (Str × BibObj)) (j : Fin (text.drop i).length)
    (hfind : findCharIdx? '@' (text.drop i) = some j) :
    (∃ m, parseBibTeX text = m) ∧
    (text[braceIdx text i j.val]? = some '{' →
      matchBraceAux 1 (text.drop (braceIdx text i j.val + 1)) = none →
      bibLoop text i entries = entries) ∧
    (∀ off, text[braceIdx text i j.val]? = some '{' →
      matchBraceAux 1 (text.drop (braceIdx text i j.val + 1)) = some off →
      (lowerStr (typeAt text (i + j.val + 1)) = "string".data ∨
        lowerStr (typeAt text (i + j.val + 1)) = "preamble".data ∨
        lowerStr (typeAt text (i + j.val + 1)) = "comment".data) →
      bibLoop text i entries =
        bibLoop text (braceIdx text i j.val + 1 + off.val + 1) entries) := by
  refine ⟨⟨_, rfl⟩, ?_, ?_⟩
  · intro hbrace hnone
    rw [bibLoop]
    split
    · rfl
    · rename_i j' hAt
      rw [hfind] at hAt
      injection hAt with hj
      subst hj
      rw [if_pos hbrace, hnone]
  · intro off hbrace hsome hty
    rw [bibLoop]
    split
    · rename_i hAt
      rw [hfind] at hAt
      cases hAt
    · rename_i j' hAt
      rw [hfind] at hAt
      injection hAt with hj
      subst hj
      rw [if_pos hbrace, hsome]
      simp only [if_pos hty]

/-- C3 witness: an `@article` entry whose outer braces never balance leaves
the previously parsed entries untouched, and an `@comment` entry is skipped
without contributing an entry. -/
theorem parseBibTeX_error_recovery_witness :
    bibLoop bibUnbalanced 0 [("prev".data, authorOnlyEntry)] =
      [("prev".data, authorOnlyEntry)] ∧
    bibLoop ("@comment".data ++ '{' :: "ignored".data ++ ['}']) 0 [] =
      bibLoop ("@comment".data ++ '{' :: "ignored".data ++ ['}']) 17 [] := by
  constructor
  · exact (parseBibTeX_error_recovery bibUnbalanced 0 [("prev".data, authorOnlyEntry)]
      ⟨0, by decide⟩ (by decide)).2.1 (by decide) (by decide)
  · exact (parseBibTeX_error_recovery ("@comment".data ++ '{' :: "ignored".data ++ ['}'])
      0 [] ⟨0, by decide⟩ (by decide)).2.2 ⟨7, by decide⟩ (by decide) (by decide)
      (by decide)

/-! ### C7: URL citation dedup and display-name update -/

theorem find?_append_none {a : Type} (p : a → Bool) {l1 : List a} (l2 : List a)
    (h : l1.find? p = none) : (l1 ++ l2).find? p = l2.find? p := by
  induction l1 with
  | nil => rfl
  | cons x l ih =>
    cases hp : p x with
    | true =>
      rw [List.find?_cons_of_pos _ hp] at h
      cases h
    | false =>
      rw [List.find?_cons_of_neg _ (by simp [hp])] at h
      rw [List.cons_append, List.find?_cons_of_neg _ (by simp [hp])]
      exact ih h

theorem idxOfStr_append_self {k : Str} {l : List Str} (h : k ∉ l) :
    idxOfStr k (l ++ [k]) = l.length := by
  induction l with
  | nil => simp [idxOfStr]
  | cons x l ih =>
    have hx : x ≠ k := fun he => h (he ▸ List.mem_cons_self x l)
    have hl : k ∉ l := fun hm => h (List.mem_cons_of_mem x hm)
    simp only [List.cons_append, idxOfStr, if_neg hx, List.length_cons]
    rw [show l.append [k] = l ++ [k] from rfl, ih hl]

theorem updateUrlName_append_notin {l : List UrlCite} (rec : UrlCite)
    (url name : Str) (h : ∀ u ∈ l, (u.url == url) = false) (hrec : rec.url = url) :
    updateUrlName (l ++ [rec]) url name = l ++ [{ rec with name := name }] := by
  induction l with
  | nil => simp [updateUrlName, hrec]
  | cons u l ih =>
    have hu : ¬ (u.url = url) := by
      have := h u (List.mem_cons_self u l)
      simpa using this
    simp only [List.cons_append, updateUrlName, if_neg hu]
    rw [show (l ++ [rec] : List UrlCite) = l.append [rec] from rfl] at ih
    rw [ih (fun v hv => h v (List.mem_cons_of_mem u hv))]


theorem formatInlineUrlCitation_head (style : CitationStyle) (url name : Str)
    (st : CitState) :
    ∃ r, (formatInlineUrlCitation style url name st).1 =
      "<a class=\"citation\" href=\"#ref-".data ++ r := by
  cases style
  · exact ⟨_, by simp [formatInlineUrlCitation, citationLink, List.append_assoc]; rfl⟩
  · exact ⟨_, by simp [formatInlineUrlCitation, citationLink, List.append_assoc]; rfl⟩

theorem formatInlineUrlCitation_state_fresh (style : CitationStyle)
    (url name : Str) (st : CitState)
    (hk : ("__url__".data ++ url) ∉ st.citedKeys)
    (hu : st.urlCitations.find? (fun u => u.url == url) = none) :
    (formatInlineUrlCitation style url name st).2 =
      { citedKeys := st.citedKeys ++ ["__url__".data ++ url],
        citeCounter := st.citeCounter + 1,
        urlCitations := st.urlCitations ++ [⟨url, name, st.citeCounter + 1⟩] } := by
  simp only [formatInlineUrlCitation, hu, Option.isSome_none, Bool.false_eq_true,
    false_and, if_false, trackCitation, if_neg hk, Option.isNone_none, if_true]
  cases style <;> simp

theorem formatInlineUrlCitation_state_seen (style : CitationStyle)
    (url name : Str) (st : CitState) (rec : UrlCite)
    (hu : st.urlCitations.find? (fun u => u.url == url) = some rec)
    (hk : ("__url__".data ++ url) ∈ st.citedKeys) :
    (formatInlineUrlCitation style url name st).2 =
      { st with urlCitations :=
          if name ≠ [] then updateUrlName st.urlCitations url name
          else st.urlCitations } := by
  by_cases hn : name = []
  · subst hn
    have hk' : ('_' :: '_' :: 'u' :: 'r' :: 'l' :: '_' :: '_' :: url) ∈ st.citedKeys := hk
    simp only [formatInlineUrlCitation, hu, trackCitation, ne_eq, not_true_eq_false,
      and_false, if_false, Option.isNone_some, Option.isSome_some]
    cases style <;> simp [if_pos hk']
  · have hcond : (st.urlCitations.find? (fun u => u.url == url)).isSome ∧ name ≠ [] := by
      rw [hu]; exact ⟨rfl, hn⟩
    have hk' : ('_' :: '_' :: 'u' :: 'r' :: 'l' :: '_' :: '_' :: url) ∈ st.citedKeys := hk
    simp only [formatInlineUrlCitation, hu, trackCitation, Option.isSome_some,
      true_and, if_pos hn, Option.isNone_some]
    cases style <;> simp [if_pos hk', hn]


theorem urlCitation_dedup_and_name_update (style : CitationStyle) (url n1 n2 : Str)
    (st : CitState) (hc : st.citeCounter = st.citedKeys.length)
    (hk : ("__url__".data ++ url) ∉ st.citedKeys)
    (hu : st.urlCitations.find? (fun u => u.url == url) = none) :
    C7Spec style url n1 n2 st := by
  unfold C7Spec
  have h1 := formatInlineUrlCitation_state_fresh style url n1 st hk hu
  have hfind1 : (formatInlineUrlCitation style url n1 st).2.urlCitations.find?
      (fun u => u.url == url) = some (⟨url, n1, st.citeCounter + 1⟩ : UrlCite) := by
    rw [h1]
    show (st.urlCitations ++ [(⟨url, n1, st.citeCounter + 1⟩ : UrlCite)]).find? _ = _
    rw [find?_append_none _ _ hu]
    simp [List.find?]
  have hk2 : ("__url__".data ++ url) ∈ (formatInlineUrlCitation style url n1 st).2.citedKeys := by
    rw [h1]; simp
  have h2 := formatInlineUrlCitation_state_seen style url n2
    (formatInlineUrlCitation style url n1 st).2 _ hfind1 hk2
  have hnotin : ∀ u ∈ st.urlCitations, (u.url == url) = false := by
    intro u hm
    have := List.find?_eq_none.mp hu u hm
    simpa using this
  refine ⟨formatInlineUrlCitation_head style url n1 st,
    formatInlineUrlCitation_head style url n2 _, ?_, ?_, ?_, ?_⟩
  · rw [h2]
  · rw [h2]
  · rw [hc] at hfind1; exact hfind1
  · rw [h2]
    show (if n2 ≠ [] then updateUrlName _ url n2 else _).find? _ = _
    by_cases hn2 : n2 = []
    · simp only [hn2, ne_eq, not_true_eq_false, if_false]
      rw [hc] at hfind1
      simpa [hn2] using hfind1
    · simp only [ne_eq, hn2, not_false_eq_true, if_true]
      rw [h1]
      show (updateUrlName (st.urlCitations ++ [(⟨url, n1, st.citeCounter + 1⟩ : UrlCite)]) url n2).find? _ = _
      rw [updateUrlName_append_notin _ url n2 hnotin rfl]
      rw [find?_append_none _ _ hu]
      simp [List.find?, hn2, hc]


/-- C7 witness: citing one url twice with two display names from a fresh
tracker. -/
theorem urlCitation_dedup_and_name_update_witness :
    C7Spec .numbered "https://ex.com".data "A".data "B".data resetCitationTracking :=
  urlCitation_dedup_and_name_update .numbered "https://ex.com".data "A".data "B".data
    resetCitationTracking rfl (by decide) rfl

/-! ### C1: citation numbering -/

theorem trackCitation_congr (k : Str) (st st' : CitState)
    (hk : st.citedKeys = st'.citedKeys) (hc : st.citeCounter = st'.citeCounter) :
    (trackCitation k st).1 = (trackCitation k st').1 ∧
    (trackCitation k st).2.citedKeys = (trackCitation k st').2.citedKeys ∧
    (trackCitation k st).2.citeCounter = (trackCitation k st').2.citeCounter := by
  unfold trackCitation
  rw [hk, hc]
  split_ifs <;> simp [hk, hc]

theorem formatInlineCitation_hit_state (bib : Bib) (style : CitationStyle)
    (k : Str) (st : CitState) (entry : BibObj)
    (h : assocGet? bib (lowerStr k) = some entry) :
    (formatInlineCitation bib style k st).2 = (trackCitation (lowerStr k) st).2 := by
  simp only [formatInlineCitation, h]
  split_ifs <;> rfl

theorem formatInlineCitation_hit_html (bib : Bib) (k : Str) (st : CitState)
    (entry : BibObj) (h : assocGet? bib (lowerStr k) = some entry) :
    (formatInlineCitation bib .numbered k st).1 =
      citationLink (trackCitation (lowerStr k) st).1
        ('[' :: natRepr (trackCitation (lowerStr k) st).1 ++ [']'])
        (formatReferenceText entry) := by
  simp only [formatInlineCitation, h]
  rfl

theorem formatInlineUrlCitation_tracked (style : CitationStyle) (u n : Str)
    (st : CitState) :
    (formatInlineUrlCitation style u n st).2.citedKeys =
      (trackCitation ("__url__".data ++ u) st).2.citedKeys ∧
    (formatInlineUrlCitation style u n st).2.citeCounter =
      (trackCitation ("__url__".data ++ u) st).2.citeCounter := by
  refine ⟨?_, ?_⟩ <;>
  · simp only [formatInlineUrlCitation, trackCitation]
    split_ifs <;> simp_all

theorem formatInlineUrlCitation_html_numbered (u n : Str) (st : CitState) :
    (formatInlineUrlCitation .numbered u n st).1 =
      citationLink (trackCitation ("__url__".data ++ u) st).1
        ('[' :: natRepr (trackCitation ("__url__".data ++ u) st).1 ++ [']'])
        (if n ≠ [] then n else u) := by
  simp only [formatInlineUrlCitation, trackCitation]
  split_ifs <;> simp_all


theorem runCitations_tracked (bib : Bib) (style : CitationStyle)
    (calls : List CiteCall) :
    ∀ st st' : CitState, st.citedKeys = st'.citedKeys →
    st.citeCounter = st'.citeCounter →
    (∀ k, CiteCall.keyed k ∈ calls → (assocGet? bib (lowerStr k)).isSome = true) →
    (runCitations bib style calls st).2.citedKeys =
        (trackRun (calls.map identOf) st').2.citedKeys ∧
    (runCitations bib style calls st).2.citeCounter =
        (trackRun (calls.map identOf) st').2.citeCounter := by
  induction calls with
  | nil => intro st st' hk hc hhit; exact ⟨hk, hc⟩
  | cons c cs ih =>
    intro st st' hk hc hhit
    have hhit' : ∀ k, CiteCall.keyed k ∈ cs → (assocGet? bib (lowerStr k)).isSome = true :=
      fun k hm => hhit k (List.mem_cons_of_mem c hm)
    cases c with
    | keyed k =>
      obtain ⟨entry, hentry⟩ := Option.isSome_iff_exists.mp
        (hhit k (List.mem_cons_self _ _))
      have hstate := formatInlineCitation_hit_state bib style k st entry hentry
      have hcongr := trackCitation_congr (lowerStr k) st st' hk hc
      simp only [runCitations, trackRun, List.map_cons, identOf]
      exact ih _ _ (hstate ▸ hcongr.2.1) (hstate ▸ hcongr.2.2) hhit'
    | url u n =>
      have htr := formatInlineUrlCitation_tracked style u n st
      have hcongr := trackCitation_congr ("__url__".data ++ u) st st' hk hc
      simp only [runCitations, trackRun, List.map_cons, identOf]
      exact ih _ _ (htr.1.trans hcongr.2.1) (htr.2.trans hcongr.2.2) hhit'

theorem dedupFO_extends (l : List Str) :
    ∀ acc, ∃ ext, dedupFO acc l = acc ++ ext := by
  induction l with
  | nil => intro acc; exact ⟨[], by simp [dedupFO]⟩
  | cons x xs ih =>
    intro acc
    by_cases hx : x ∈ acc
    · obtain ⟨ext, hext⟩ := ih acc
      exact ⟨ext, by simp [dedupFO, hx, hext]⟩
    · obtain ⟨ext, hext⟩ := ih (acc ++ [x])
      exact ⟨[x] ++ ext, by simp [dedupFO, hx, hext]⟩

theorem mem_dedupFO (l : List Str) :
    ∀ acc x, x ∈ dedupFO acc l ↔ x ∈ acc ∨ x ∈ l := by
  induction l with
  | nil => intro acc x; simp [dedupFO]
  | cons y ys ih =>
    intro acc x
    by_cases hy : y ∈ acc
    · simp only [dedupFO, hy, if_true, ih]
      constructor
      · rintro (h | h)
        · exact Or.inl h
        · exact Or.inr (List.mem_cons_of_mem y h)
      · rintro (h | h)
        · exact Or.inl h
        · rcases List.mem_cons.mp h with rfl | h
          · exact Or.inl hy
          · exact Or.inr h
    · simp only [dedupFO, hy, if_false, ih]
      constructor
      · rintro (h | h)
        · rcases List.mem_append.mp h with h | h
          · exact Or.inl h
          · simp at h; subst h; exact Or.inr (List.mem_cons_self _ _)
        · exact Or.inr (List.mem_cons_of_mem y h)
      · rintro (h | h)
        · exact Or.inl (List.mem_append.mpr (Or.inl h))
        · rcases List.mem_cons.mp h with rfl | h
          · exact Or.inl (List.mem_append.mpr (Or.inr (by simp)))
          · exact Or.inr h

theorem idxOfStr_append_left {x : Str} {acc : List Str} (ext : List Str)
    (h : x ∈ acc) : idxOfStr x (acc ++ ext) = idxOfStr x acc := by
  induction acc with
  | nil => cases h
  | cons a l ih =>
    by_cases ha : a = x
    · simp [idxOfStr, ha]
    · rcases List.mem_cons.mp h with rfl | h
      · exact absurd rfl ha
      · simp [idxOfStr, ha, ih h]

theorem dedupFO_nodup (l : List Str) :
    ∀ acc, acc.Nodup → (dedupFO acc l).Nodup := by
  induction l with
  | nil => intro acc h; simpa [dedupFO] using h
  | cons x xs ih =>
    intro acc h
    by_cases hx : x ∈ acc
    · simpa [dedupFO, hx] using ih acc h
    · rw [show dedupFO acc (x :: xs) = dedupFO (acc ++ [x]) xs by simp [dedupFO, hx]]
      refine ih (acc ++ [x]) ?_
      simp [List.nodup_append, h, hx]


theorem trackRun_master (idents : List Str) :
    ∀ st : CitState, st.citeCounter = st.citedKeys.length →
      (trackRun idents st).2.citedKeys = dedupFO st.citedKeys idents ∧
      (trackRun idents st).2.citeCounter = (dedupFO st.citedKeys idents).length ∧
      (∀ j, j < idents.length →
        (trackRun idents st).1.getD j 0 =
          idxOfStr (idents.getD j []) (dedupFO st.citedKeys idents) + 1) := by
  induction idents with
  | nil => intro st hc; exact ⟨rfl, by simpa [dedupFO] using hc, by simp⟩
  | cons x xs ih =>
    intro st hc
    by_cases hx : x ∈ st.citedKeys
    · have ht : trackCitation x st = (idxOfStr x st.citedKeys + 1, st) := by
        simp [trackCitation, hx]
      obtain ⟨h1, h2, h3⟩ := ih st hc
      simp only [trackRun, ht]
      refine ⟨by simpa [dedupFO, hx] using h1, by simpa [dedupFO, hx] using h2, ?_⟩
      intro j hj
      cases j with
      | zero =>
        simp only [List.getD_cons_zero, dedupFO, hx, if_true]
        obtain ⟨ext, hext⟩ := dedupFO_extends xs st.citedKeys
        rw [hext, idxOfStr_append_left ext hx]
      | succ j =>
        simp only [List.getD_cons_succ, dedupFO, hx, if_true]
        exact h3 j (by simpa using hj)
    · have ht : trackCitation x st =
          (st.citeCounter + 1,
            (⟨st.citedKeys ++ [x], st.citeCounter + 1, st.urlCitations⟩ : CitState)) := by
        simp [trackCitation, hx]
      obtain ⟨h1, h2, h3⟩ := ih
        (⟨st.citedKeys ++ [x], st.citeCounter + 1, st.urlCitations⟩ : CitState)
        (by simp [hc])
      simp only [trackRun, ht]
      refine ⟨by simpa [dedupFO, hx] using h1, by simpa [dedupFO, hx] using h2, ?_⟩
      intro j hj
      cases j with
      | zero =>
        simp only [List.getD_cons_zero, dedupFO, hx, if_false]
        obtain ⟨ext, hext⟩ := dedupFO_extends xs (st.citedKeys ++ [x])
        rw [hext, idxOfStr_append_left ext (by simp), idxOfStr_append_self hx, hc]
      | succ j =>
        simp only [List.getD_cons_succ, dedupFO, hx, if_false]
        exact h3 j (by simpa using hj)

theorem range'_map_succ (s n : Nat) :
    (List.range' s n).map (· + 1) = List.range' (s + 1) n := by
  induction n generalizing s with
  | zero => rfl
  | succ n ih => simp [List.range'_succ, ih]

theorem map_idxOfStr_nodup (l : List Str) (h : l.Nodup) :
    l.map (fun x => idxOfStr x l + 1) = List.range' 1 l.length := by
  induction l with
  | nil => rfl
  | cons a t ih =>
    have ha : a ∉ t := (List.nodup_cons.mp h).1
    have ht : t.Nodup := (List.nodup_cons.mp h).2
    have hmap : t.map (fun x => idxOfStr x (a :: t) + 1) =
        (t.map (fun x => idxOfStr x t + 1)).map (· + 1) := by
      rw [List.map_map]
      apply List.map_congr_left
      intro x hx
      have hax : ¬ (a = x) := fun he => ha (he ▸ hx)
      simp [idxOfStr, hax]
    have hhead : idxOfStr a (a :: t) + 1 = 1 := by simp [idxOfStr]
    rw [List.map_cons, hmap, ih ht, range'_map_succ, hhead, List.length_cons,
      List.range'_succ]

theorem trackRun_append (l1 l2 : List Str) (st : CitState) :
    (trackRun (l1 ++ l2) st).2 = (trackRun l2 (trackRun l1 st).2).2 := by
  induction l1 generalizing st with
  | nil => rfl
  | cons x xs ih =>
    simp only [List.cons_append, trackRun]
    exact ih _

theorem trackRun_repeat (idents : List Str) (j : Nat) (hj : j < idents.length)
    (hmem : idents.getD j [] ∈ idents.take j) :
    (trackRun (idents.take (j + 1)) resetCitationTracking).2 =
      (trackRun (idents.take j) resetCitationTracking).2 := by
  have hget : idents[j]? = some (idents.getD j []) := by
    rw [List.getElem?_eq_getElem hj]
    rw [List.getD_eq_getElem _ _ hj]
  have htake : idents.take (j + 1) = idents.take j ++ [idents.getD j []] := by
    rw [List.take_succ, hget]
    rfl
  rw [htake, trackRun_append]
  have hmaster := trackRun_master (idents.take j) resetCitationTracking rfl
  have hx : idents.getD j [] ∈
      (trackRun (idents.take j) resetCitationTracking).2.citedKeys := by
    rw [hmaster.1]
    exact (mem_dedupFO _ _ _).mpr (Or.inr hmem)
  have hx' : idents[j]?.getD [] ∈
      (trackRun (idents.take j) resetCitationTracking).2.citedKeys := by
    rw [hget]; exact hx
  simp [trackRun, trackCitation, hx']


theorem hasSub_citationLink (n : Nat) (label t : Str) :
    hasSub label (citationLink n label t) = true := by
  unfold citationLink
  exact hasSub_intro (List.infix_append _ _ _)

theorem runCitations_marker (bib : Bib) (calls : List CiteCall) :
    ∀ st st' : CitState, st.citedKeys = st'.citedKeys →
      st.citeCounter = st'.citeCounter →
      (∀ k, CiteCall.keyed k ∈ calls → (assocGet? bib (lowerStr k)).isSome = true) →
      ∀ j, j < calls.length →
        hasSub ('[' :: natRepr ((trackRun (calls.map identOf) st').1.getD j 0) ++ [']'])
          ((runCitations bib .numbered calls st).1.getD j []) = true := by
  induction calls with
  | nil => intro st st' _ _ _ j hj; simp at hj
  | cons c cs ih =>
    intro st st' hk hc hhit j hj
    have hhit' : ∀ k, CiteCall.keyed k ∈ cs → (assocGet? bib (lowerStr k)).isSome = true :=
      fun k hm => hhit k (List.mem_cons_of_mem c hm)
    cases j with
    | zero =>
      cases c with
      | keyed k =>
        obtain ⟨entry, hentry⟩ := Option.isSome_iff_exists.mp
          (hhit k (List.mem_cons_self _ _))
        simp only [runCitations, trackRun, List.map_cons, identOf, List.getD_cons_zero]
        rw [formatInlineCitation_hit_html bib k st entry hentry]
        rw [(trackCitation_congr (lowerStr k) st st' hk hc).1]
        exact hasSub_citationLink _ _ _
      | url u nm =>
        simp only [runCitations, trackRun, List.map_cons, identOf, List.getD_cons_zero]
        rw [formatInlineUrlCitation_html_numbered u nm st]
        rw [(trackCitation_congr ("__url__".data ++ u) st st' hk hc).1]
        exact hasSub_citationLink _ _ _
    | succ j =>
      cases c with
      | keyed k =>
        obtain ⟨entry, hentry⟩ := Option.isSome_iff_exists.mp
          (hhit k (List.mem_cons_self _ _))
        simp only [runCitations, trackRun, List.map_cons, identOf, List.getD_cons_succ]
        have hst := formatInlineCitation_hit_state bib .numbered k st entry hentry
        have hcongr := trackCitation_congr (lowerStr k) st st' hk hc
        exact ih _ _ (by rw [hst]; exact hcongr.2.1) (by rw [hst]; exact hcongr.2.2)
          hhit' j (by simpa using hj)
      | url u nm =>
        simp only [runCitations, trackRun, List.map_cons, identOf, List.getD_cons_succ]
        have htr := formatInlineUrlCitation_tracked .numbered u nm st
        have hcongr := trackCitation_congr ("__url__".data ++ u) st st' hk hc
        exact ih _ _ (htr.1.trans hcongr.2.1) (htr.2.trans hcongr.2.2)
          hhit' j (by simpa using hj)

theorem citation_numbering (bib : Bib) (style : CitationStyle) (calls : List CiteCall)
    (h : ∀ k, CiteCall.keyed k ∈ calls → (assocGet? bib (lowerStr k)).isSome = true) :
    C1Spec bib style calls := by
  simp only [C1Spec]
  have htracked := runCitations_tracked bib style calls resetCitationTracking
    resetCitationTracking rfl rfl h
  have hmaster := trackRun_master (calls.map identOf) resetCitationTracking rfl
  have hnodup := dedupFO_nodup (calls.map identOf) [] List.nodup_nil
  refine ⟨htracked.1, htracked.2, hmaster.1, hmaster.2.1, ?_, ?_, ?_, ?_⟩
  · intro j hj
    exact hmaster.2.2 j hj
  · exact map_idxOfStr_nodup _ hnodup
  · intro j hj hmem
    exact trackRun_repeat _ j hj hmem
  · intro hstyle j hj
    subst hstyle
    exact runCitations_marker bib calls resetCitationTracking resetCitationTracking
      rfl rfl h j hj

theorem citation_numbering_witness :
    C1Spec sampleBib .numbered
      [CiteCall.keyed "Smith2020".data, CiteCall.url "https://ex.com".data "Ex".data,
       CiteCall.keyed "smith2020".data, CiteCall.url "https://ex.com".data []] := by
  apply citation_numbering
  intro k hk
  simp only [List.mem_cons, List.not_mem_nil, or_false] at hk
  rcases hk with h | h | h | h
  · injection h with h; subst h; decide
  · exact CiteCall.noConfusion h
  · injection h with h; subst h; decide
  · exact CiteCall.noConfusion h


/-- C6 counterexample: a caption that itself contains `<figure` makes the
margin form contain `<figure`, refuting the unconditional "contains no
`<figure` element" of the claim. -/
theorem imageReplace_margin_injected_figure :
    hasSub figPat
      (imageReplace ('<' :: "figure".data) none "a.jpg".data (some .margin) 0).1 = true := by
  decide
